import Mathlib

/-! The `filter update` and `filter list` commands of gmail-tools.

A shallow embedding of `cmd/filter.go`.  The two command bodies
(`runUpdateFilterCmd`, `runListFilterCmd`) are translated statement by statement
into state-passing functions.  Everything the file imports from elsewhere
(the Gmail helper, the query parser, the meta-group template engine, the
confirmation prompts) is a field of `Env`: the command is verified for every
behaviour of those collaborators.  `LoadConfig`, `api.NewGmailClient` and
`NewGmailHelper` only build the helper whose methods are those fields.

* Go pointers are `Option Nat`: `none` is `nil`, `some a` is the address `a`
  of an object in the `Heap`.  Dereferencing `nil` (or an address that holds
  no object) panics.
* Go maps are association lists with one entry per key; the order in which
  `range` visits a map is not fixed by the language, so it is a field of
  `Env` as well.
* `prnt.StderrLog.Fatal*` ends the process: the run stops with status `fatal`.
* Every call that leaves the process or prints is recorded in the trace,
  together with whether it succeeded.
-/

namespace GmailTools

/-! ## Data model -/

/-- A Go pointer: `none` is `nil`. -/
abbrev Ptr := Option Nat

/-- The type `gm.FilterCriteria`: the field `Query`, and all its other fields
kept together in `others`. -/
structure FilterCriteria (κ : Type) where
  Query : String
  others : κ
deriving DecidableEq, Repr

/-- The type `gm.Filter`: `Id`, the pointer `Criteria`, and all its other
fields (the `Action` pointer among them) kept together in `others`. -/
structure Filter (α : Type) where
  Id : String
  Criteria : Ptr
  others : α
deriving DecidableEq, Repr

/-- The objects of the two types that exist, each at the address given by its
position. -/
structure Heap (α κ : Type) where
  filters : List (Filter α)
  criteria : List (FilterCriteria κ)
deriving DecidableEq, Repr

namespace Heap

variable {α κ : Type}

/-- Read `*p` for `p : *gm.Filter`. -/
def filterAt (h : Heap α κ) (p : Ptr) : Option (Filter α) :=
  match p with
  | none => none
  | some a => h.filters[a]?

/-- Read `*p` for `p : *gm.FilterCriteria`. -/
def criteriaAt (h : Heap α κ) (p : Ptr) : Option (FilterCriteria κ) :=
  match p with
  | none => none
  | some a => h.criteria[a]?

/-- Allocation `&gm.Filter{}`: a new zero-valued filter at a fresh address. -/
def newFilter [Inhabited α] (h : Heap α κ) : Heap α κ × Nat :=
  ({ h with filters := h.filters ++ [{ Id := "", Criteria := none, others := default }] },
   h.filters.length)

/-- Allocation `&gm.FilterCriteria{}`. -/
def newCriteria [Inhabited κ] (h : Heap α κ) : Heap α κ × Nat :=
  ({ h with criteria := h.criteria ++ [{ Query := "", others := default }] },
   h.criteria.length)

/-- Assignment `*a = v` for a filter. -/
def storeFilter (h : Heap α κ) (a : Nat) (v : Filter α) : Heap α κ :=
  { h with filters := h.filters.set a v }

/-- Assignment `*a = v` for a criteria object. -/
def storeCriteria (h : Heap α κ) (a : Nat) (v : FilterCriteria κ) : Heap α κ :=
  { h with criteria := h.criteria.set a v }

end Heap

/-- A Go `map[string]V`. -/
abbrev GoMap (V : Type) := List (String × V)

namespace GoMap

variable {V : Type}

/-- The index expression `m[k]`, `none` when the key is absent. -/
def lookup : GoMap V → String → Option V
  | [], _ => none
  | (k1, v) :: rest, k => if k1 = k then some v else lookup rest k

/-- The assignment `m[k] = v`. -/
def assign : GoMap V → String → V → GoMap V
  | [], k, v => [(k, v)]
  | (k1, v1) :: rest, k, v =>
    if k1 = k then (k, v) :: rest else (k1, v1) :: assign rest k v

/-- The keys of the map. -/
def keys (m : GoMap V) : List String := m.map Prod.fst

end GoMap

/-- The two levels `prnt.LPrintln` is called with in this file. -/
inductive PrintLevel
  | Quietable
  | Verbose
deriving DecidableEq, Repr

/-- What the command does that is visible from outside, in order. -/
inductive Event
  | regexpCompile (pattern : String) (ok : Bool)
  | getFilters (ok : Bool)
  | parseElement (query : String) (ok : Bool)
  | updateMetaGroups (ok : Bool)
  | lprintln (level : PrintLevel) (line : String)
  | printFilterDiff (old new : Ptr)
  | printFilter (fltr : Ptr)
  | confirmLong (prompt : String) (answer : Bool)
  | confirm (prompt : String) (dflt : Bool) (answer : Bool)
  | createFilter (fltr : Ptr) (ok : Bool)
  | createdMsg (id : String)
  | deleteFilter (id : String) (ok : Bool)
  | deletedMsg (id : String)
deriving DecidableEq, Repr

/-- How far the command got. -/
inductive Status
  | running
  | done
  | fatal (msg : String)
  | panicked
deriving DecidableEq, Repr

/-- The collaborators of `cmd/filter.go`, none of which is defined in it.
`heap0` holds the objects the provider returned; `GetFilters` the slice of
pointers to them.  `CreateFilter` returns the id of the created filter, the
only part of its result the command reads.  `rangeElems` and `rangeUpdated`
give the order in which `range` visits the two maps the command iterates.
The provider and the prompts answer as functions of their arguments: within one
run each prompt is called at most once and the candidates are distinct objects
under distinct ids, so every sequence of answers is the behaviour of some
`Env`. -/
structure Env (T R α κ : Type) where
  DryRun : Bool
  heap0 : Heap α κ
  GetFilters : Except String (List Ptr)
  ParseElement : String → Except String T
  UpdateMetaGroups : GoMap T → Except String (GoMap T)
  FullFilterStr : T → String
  MaybeConfirmFromInputLong : String → Bool
  MaybeConfirmFromInput : String → Bool → Bool
  CreateFilter : Heap α κ → Ptr → Except String String
  DeleteFilter : String → Option String
  regexpCompile : String → Except String R
  MatchesFilter : R → Ptr → Bool
  rangeElems : GoMap T → GoMap T
  rangeUpdated : GoMap Ptr → GoMap Ptr

/-- The local variables of `runUpdateFilterCmd`, the heap, the trace and the
status. -/
structure State (T α κ : Type) where
  heap : Heap α κ
  oldFiltersById : GoMap Ptr
  filterQueryElems : GoMap T
  updatedFilters : GoMap Ptr
  hasPrintedHeader : Bool
  trace : List Event
  status : Status
deriving DecidableEq, Repr

namespace State

variable {T α κ : Type}

/-- Record events. -/
def emit (s : State T α κ) (evs : List Event) : State T α κ :=
  { s with trace := s.trace ++ evs }

/-- Stop with the given status. -/
def halt (s : State T α κ) (st : Status) : State T α κ :=
  { s with status := st }

/-- Run the next part of the command, unless the run has already stopped. -/
def andThen (s : State T α κ) (k : State T α κ → State T α κ) : State T α κ :=
  match s.status with
  | .running => k s
  | _ => s

/-- A `for ... range` loop whose body may stop the run: the body is run on each
element in turn, as long as the run goes on. -/
def forEach {X : Type} (body : State T α κ → X → State T α κ) :
    List X → State T α κ → State T α κ
  | [], s => s
  | x :: rest, s => (body s x).andThen (forEach body rest)

end State

/-! ## `runUpdateFilterCmd` -/

section Update

variable {T R α κ : Type} [Inhabited α] [Inhabited κ]

/-- Lines 24-25: the state before the first loop. -/
def initState (env : Env T R α κ) : State T α κ :=
  { heap := env.heap0, oldFiltersById := [], filterQueryElems := [],
    updatedFilters := [], hasPrintedHeader := false, trace := [],
    status := .running }

/-- Lines 27-35: the body of the loop over `filters`. -/
def parseBody (env : Env T R α κ) (s : State T α κ) (fltr : Ptr) : State T α κ :=
  match s.heap.filterAt fltr with
  | none => s.halt .panicked
  | some f =>
    let s1 := { s with oldFiltersById := s.oldFiltersById.assign f.Id fltr }
    match s1.heap.criteriaAt f.Criteria with
    | none => s1.halt .panicked
    | some c =>
      let filterStr := c.Query
      if filterStr ≠ "" then
        match env.ParseElement filterStr with
        | .error err =>
          (s1.emit [.parseElement filterStr false]).halt
            (.fatal ("Error parsing filter \"" ++ filterStr ++ "\": " ++ err ++ "\n"))
        | .ok filterElems =>
          { s1.emit [.parseElement filterStr true] with
            filterQueryElems := s1.filterQueryElems.assign f.Id filterElems }
      else s1

/-- Lines 26-36: the loop over `filters`. -/
def parseLoop (env : Env T R α κ) : List Ptr → State T α κ → State T α κ :=
  State.forEach (parseBody env)

/-- Lines 16-36: fetch the filters and parse the query of each. -/
def parsePhase (env : Env T R α κ) : State T α κ :=
  match env.GetFilters with
  | .error err =>
    ((initState env).emit [.getFilters false]).halt (.fatal ("Error getting filters: " ++ err))
  | .ok filters => parseLoop env filters ((initState env).emit [.getFilters true])

/-- Lines 38-41: the call of `template.UpdateMetaGroups`, which works on the
map it is given. -/
def metaGroupsStep (env : Env T R α κ) (s : State T α κ) : State T α κ :=
  match env.UpdateMetaGroups s.filterQueryElems with
  | .error err => (s.emit [.updateMetaGroups false]).halt (.fatal ("Template error: " ++ err))
  | .ok m => { s.emit [.updateMetaGroups true] with filterQueryElems := m }

/-- Lines 55-61: build the copy of `oldFilter` that carries `newQuery`. `oldF`
is `*oldFilter` and `oldC` is `*oldFilter.Criteria`, both read at line 50; the
loop has written to neither object since. The result is the new heap and the
address of the copy. -/
def copyFilter (h : Heap α κ) (oldF : Filter α) (oldC : FilterCriteria κ)
    (newQuery : String) : Heap α κ × Nat :=
  -- updatedFilter := &gm.Filter{}
  let (h1, updatedFilter) := h.newFilter
  -- *updatedFilter = *oldFilter
  let h2 := h1.storeFilter updatedFilter oldF
  -- updatedFilter.Criteria = &gm.FilterCriteria{}
  let (h3, crit) := h2.newCriteria
  let h4 := h3.storeFilter updatedFilter { oldF with Criteria := some crit }
  -- *updatedFilter.Criteria = *oldFilter.Criteria
  let h5 := h4.storeCriteria crit oldC
  -- updatedFilter.Criteria.Query = newQuery
  let h6 := h5.storeCriteria crit { oldC with Query := newQuery }
  (h6, updatedFilter)

/-- Lines 48-64: the body of the loop over `filterQueryElems`. -/
def diffBody (env : Env T R α κ) (s : State T α κ) (entry : String × T) : State T α κ :=
  let id := entry.1
  let filterQElem := entry.2
  let oldFilter : Ptr := (s.oldFiltersById.lookup id).getD none
  let newQuery := env.FullFilterStr filterQElem
  match s.heap.filterAt oldFilter with
  | none => s.halt .panicked
  | some oldF =>
    match s.heap.criteriaAt oldF.Criteria with
    | none => s.halt .panicked
    | some oldC =>
      if newQuery ≠ oldC.Query then
        let s1 :=
          if s.hasPrintedHeader then s
          else { s.emit [.lprintln .Quietable "Updates to be done:"] with
                 hasPrintedHeader := true }
        let hp := copyFilter s1.heap oldF oldC newQuery
        { s1 with
          heap := hp.1
          updatedFilters := s1.updatedFilters.assign id (some hp.2)
          trace := s1.trace ++ [.printFilterDiff oldFilter (some hp.2),
                                .lprintln .Quietable ""] }
      else s

/-- Lines 47-65: the loop over `filterQueryElems`, visited in the order given. -/
def diffLoop (env : Env T R α κ) : List (String × T) → State T α κ → State T α κ :=
  State.forEach (diffBody env)

/-- Lines 43-65. -/
def diffStep (env : Env T R α κ) (s : State T α κ) : State T α κ :=
  diffLoop env (env.rangeElems s.filterQueryElems) s

/-- Lines 84-93: the body of the loop over `updatedFilters`. -/
def commitBody (env : Env T R α κ) (s : State T α κ) (entry : String × Ptr) : State T α κ :=
  let id := entry.1
  let fltr := entry.2
  match env.CreateFilter s.heap fltr with
  | .error err =>
    (s.emit [.createFilter fltr false]).halt (.fatal ("Failed to create filter: " ++ err))
  | .ok createdId =>
    let s1 := s.emit [.createFilter fltr true, .createdMsg createdId]
    match env.DeleteFilter id with
    | some err =>
      (s1.emit [.deleteFilter id false]).halt
        (.fatal ("Failed to delete filter " ++ id ++ ": " ++ err ++ "\n"))
    | none => s1.emit [.deleteFilter id true, .deletedMsg id]

/-- Lines 83-94: the loop over `updatedFilters`, visited in the order given. -/
def commitLoop (env : Env T R α κ) : List (String × Ptr) → State T α κ → State T α κ :=
  State.forEach (commitBody env)

/-- Lines 75-81: ask for confirmation, with the long prompt when there are
several candidates. The result is the answer and the call made. -/
def askConfirm (env : Env T R α κ) (s : State T α κ) : Bool × Event :=
  let confirmStr := "Make these changes?"
  if s.updatedFilters.length > 1 then
    let commit := env.MaybeConfirmFromInputLong confirmStr
    (commit, .confirmLong confirmStr commit)
  else
    let commit := env.MaybeConfirmFromInput confirmStr false
    (commit, .confirm confirmStr false commit)

/-- Lines 67-96. -/
def commitStep (env : Env T R α κ) (s : State T α κ) : State T α κ :=
  if env.DryRun then
    (s.emit [.lprintln .Quietable "Skipping committing changes (--dry provided)"]).halt .done
  else if s.updatedFilters.length = 0 then
    (s.emit [.lprintln .Verbose "No updates to be made"]).halt .done
  else
    let asked := askConfirm env s
    let s1 := s.emit [asked.2]
    if asked.1 then
      (commitLoop env (env.rangeUpdated s1.updatedFilters) s1).andThen (fun s2 => s2.halt .done)
    else s1.halt .done

/-- The state when `template.UpdateMetaGroups` has returned. -/
def metaGroupsPhase (env : Env T R α κ) : State T α κ :=
  (parsePhase env).andThen (metaGroupsStep env)

/-- The state when the loop that collects the update candidates is over. -/
def diffPhase (env : Env T R α κ) : State T α κ :=
  (metaGroupsPhase env).andThen (diffStep env)

/-- The command `filter update`, lines 15-97. -/
def runUpdateFilterCmd (env : Env T R α κ) : State T α κ :=
  (diffPhase env).andThen (commitStep env)

end Update

/-! ## `runListFilterCmd` -/

section ListCmd

variable {T R α κ : Type}

/-- The trace and the status of a run of `filter list`. -/
structure Run where
  trace : List Event
  status : Status
deriving DecidableEq, Repr

/-- Lines 119-123: the loop over `filters`. -/
def listLoop (env : Env T R α κ) (searchRegexp : Option R) : List Ptr → List Event
  | [] => []
  | fltr :: rest =>
    let shown :=
      match searchRegexp with
      | none => true
      | some re => env.MatchesFilter re fltr
    if shown then Event.printFilter fltr :: listLoop env searchRegexp rest
    else listLoop env searchRegexp rest

/-- Lines 109-123, once `searchRegexp` is set. -/
def listFilters (env : Env T R α κ) (searchRegexp : Option R) (tr : List Event) : Run :=
  match env.GetFilters with
  | .error err =>
    { trace := tr ++ [.getFilters false], status := .fatal ("Error getting filters: " ++ err) }
  | .ok filters =>
    let tr1 := tr ++ [.getFilters true]
    let tr2 := if filters.length = 0 then tr1 ++ [.lprintln .Quietable "No filters found"] else tr1
    { trace := tr2 ++ listLoop env searchRegexp filters, status := .done }

/-- The command `filter list`, lines 99-124. -/
def runListFilterCmd (env : Env T R α κ) (args : List String) : Run :=
  match args with
  | [] => listFilters env none []
  | pattern :: _ =>
    match env.regexpCompile pattern with
    | .error err =>
      { trace := [.regexpCompile pattern false],
        status := .fatal ("Failed to compile regex pattern: " ++ err) }
    | .ok re => listFilters env (some re) [.regexpCompile pattern true]

end ListCmd

end GmailTools

namespace GmailTools

/-! ## Vocabulary of the statements -/

namespace Heap

variable {α κ : Type}

/-- The heap `h` holds every object of `h0` unchanged at its address, and
possibly more objects at further addresses. -/
def Extends (h0 h : Heap α κ) : Prop :=
  (∃ fs, h.filters = h0.filters ++ fs) ∧ ∃ cs, h.criteria = h0.criteria ++ cs

end Heap

/-- A call of `CreateFilter` or `DeleteFilter`. -/
def Event.isApi : Event → Bool
  | .createFilter _ _ => true
  | .deleteFilter _ _ => true
  | _ => false

/-- A call of one of the two confirmation prompts. -/
def Event.isConfirm : Event → Bool
  | .confirmLong _ _ => true
  | .confirm _ _ _ => true
  | _ => false

/-- The query a call of `ParseElement` was made with. -/
def Event.parsedQuery : Event → Option String
  | .parseElement q _ => some q
  | _ => none

/-- The filter a call of `PrintFilter` was made with. -/
def Event.printedFilter : Event → Option Ptr
  | .printFilter p => some p
  | _ => none

/-- The two calls a candidate gives when it is fully processed: `CreateFilter`
on the replacement, then `DeleteFilter` on the id it replaces. -/
def replaceCalls (c : String × Ptr) : List Event :=
  [.createFilter c.2 true, .deleteFilter c.1 true]

/-- The calls of `CreateFilter` and `DeleteFilter` in a trace, in order. -/
def apiCalls (tr : List Event) : List Event := tr.filter Event.isApi

section

variable {T R α κ : Type}

/-- The filter and the criteria a pointer to a filter leads to. -/
def Heap.filterOf (h : Heap α κ) (p : Ptr) : Option (Filter α × FilterCriteria κ) :=
  match h.filterAt p with
  | none => none
  | some f =>
    match h.criteriaAt f.Criteria with
    | none => none
    | some c => some (f, c)

/-- The queries of the filters the pointers lead to, in order. -/
def queriesOf (h : Heap α κ) (fs : List Ptr) : List String :=
  fs.filterMap (fun p => (h.filterOf p).map (fun fc => fc.2.Query))

/-- The calls of `ParseElement` made when each of the queries that is not empty
is parsed, successfully, in order. -/
def parseCalls (queries : List String) : List Event :=
  (queries.filter (fun q => q ≠ "")).map (fun q => Event.parseElement q true)

/-- The pointer leads to a filter with criteria whose query, unless it is empty,
is one `ParseElement` accepts. -/
def Parses (env : Env T R α κ) (p : Ptr) : Prop :=
  ∃ f c, env.heap0.filterOf p = some (f, c) ∧
    (c.Query ≠ "" → ∃ t, env.ParseElement c.Query = .ok t)

/-- The original query recorded for an id: `oldFiltersById[id].Criteria.Query`. -/
def originalQuery (h : Heap α κ) (old : GoMap Ptr) (id : String) : Option String :=
  match old.lookup id with
  | none => none
  | some p => (h.filterOf p).map (fun fc => fc.2.Query)

/-- Every entry of `oldFiltersById` points to a filter of that id that has
criteria. -/
def Recorded (h : Heap α κ) (old : GoMap Ptr) : Prop :=
  ∀ id p, old.lookup id = some p → ∃ f c, h.filterOf p = some (f, c) ∧ f.Id = id

/-- What holds of the state all along the first loop. -/
structure ParseInv (env : Env T R α κ) (s : State T α κ) : Prop where
  heap_eq : s.heap = env.heap0
  updated : s.updatedFilters = []
  recorded : s.status = .running → Recorded env.heap0 s.oldFiltersById
  keys_sub : ∀ k ∈ s.filterQueryElems.keys, k ∈ s.oldFiltersById.keys
  nodup : s.filterQueryElems.keys.Nodup
  quiet : ∀ ev ∈ s.trace, ev.isApi = false ∧ ev.isConfirm = false

/-- The object at `p` is a copy of the filter recorded for `id`: a filter at
an address that did not exist in `h0`, equal to the recorded one but for its
`Criteria` pointer, which leads to a criteria object at an address that did not
exist in `h0` either, equal to the recorded criteria but for `Query`, which is
`newQuery`. -/
def IsCopy (h0 h : Heap α κ) (old : GoMap Ptr) (id : String) (p : Ptr)
    (newQuery : String) : Prop :=
  ∃ a ca po fo co, p = some a ∧ h0.filters.length ≤ a ∧ h0.criteria.length ≤ ca ∧
    old.lookup id = some po ∧ h0.filterOf po = some (fo, co) ∧
    h.filters[a]? = some { fo with Criteria := some ca } ∧
    h.criteria[ca]? = some { co with Query := newQuery }

/-- What holds of the state all along the second loop, which visits entries of
`L`. -/
structure DiffInv (env : Env T R α κ) (L : List (String × T)) (s0 s : State T α κ) : Prop where
  ext : Heap.Extends env.heap0 s.heap
  old_eq : s.oldFiltersById = s0.oldFiltersById
  elems_eq : s.filterQueryElems = s0.filterQueryElems
  cands : ∀ id p, s.updatedFilters.lookup id = some p →
    ∃ t, (id, t) ∈ L ∧ IsCopy env.heap0 s.heap s0.oldFiltersById id p (env.FullFilterStr t)
  quiet : ∀ ev ∈ s.trace, ev.isApi = false ∧ ev.isConfirm = false

end

end GmailTools

namespace GmailTools

/-! ## A small instance

A provider with three filters and a parser for queries made of bare words, used
to run the commands on concrete input. -/

namespace Sample

/-- Split at blanks; `cur` holds the characters of the current word, last
first. -/
def wordsAux : List Char → List Char → List String
  | [], cur => if cur = [] then [] else [String.mk cur.reverse]
  | c :: cs, cur =>
    if c = ' ' then
      (if cur = [] then wordsAux cs [] else String.mk cur.reverse :: wordsAux cs [])
    else wordsAux cs (c :: cur)

/-- A root group of bare terms: its children, in order. -/
abbrev Tree := List String

/-- Modelled from the spec: the lexer and parser (absent from `cmd/filter.go`),
restricted to queries of bare words under implicit AND.  Whitespace separates
tokens (spec 4.1); a quote that is never closed is a `SyntaxError` (spec 4.1),
which here is any query with an odd number of quote characters. -/
def ParseElement (q : String) : Except String Tree :=
  if (q.data.filter (fun c => c = '"')).length % 2 = 1 then
    .error "SyntaxError: unterminated quote"
  else .ok (wordsAux q.data [])

/-- Modelled from the spec: the serialisation of a root group of bare terms
under implicit AND, its children joined by one blank (spec 4.3). -/
def FullFilterStr (t : Tree) : String := " ".intercalate t

/-- Modelled from the spec: one meta group, whose old definition is the term
`old` and whose new definition is the term `new`; every child equal to `old` is
replaced in place (spec 4.4). -/
def replaceTerm (old new : String) (m : GoMap Tree) : GoMap Tree :=
  m.map (fun e => (e.1, e.2.map (fun w => if w = old then new else w)))

/-- The three filters of the provider: a query with a doubled blank, an empty
query and a query in canonical form. -/
def heap : Heap String String :=
  { filters := [{ Id := "f1", Criteria := some 0, others := "trash" },
                { Id := "f2", Criteria := some 1, others := "archive" },
                { Id := "f3", Criteria := some 2, others := "star" }],
    criteria := [{ Query := "from:a  from:b", others := "" },
                 { Query := "", others := "me@x.org" },
                 { Query := "label:x list:y", others := "" }] }

/-- The provider of `heap`, a confirmation that answers `answer`, and a template
engine that rewrites `label:x` into `label:z`. -/
def env (dry answer : Bool) : Env Tree String String String :=
  { DryRun := dry
    heap0 := heap
    GetFilters := .ok [some 0, some 1, some 2]
    ParseElement := ParseElement
    UpdateMetaGroups := fun m => .ok (replaceTerm "label:x" "label:z" m)
    FullFilterStr := FullFilterStr
    MaybeConfirmFromInputLong := fun _ => answer
    MaybeConfirmFromInput := fun _ _ => answer
    CreateFilter := fun h p =>
      match h.filterAt p with
      | some f => .ok (f.Id ++ "-new")
      | none => .error "no filter"
    DeleteFilter := fun _ => none
    regexpCompile := fun pat => if pat = "" then .error "empty pattern" else .ok pat
    MatchesFilter := fun re p =>
      match heap.filterAt p with
      | some f => f.others = re
      | none => false
    rangeElems := fun m => m
    rangeUpdated := fun m => m.reverse }

/-- The same, with a template engine that changes no tree. -/
def envIdle : Env Tree String String String :=
  { env false true with UpdateMetaGroups := fun m => .ok m }

/-- The same, with a template engine that fails. -/
def envBadTemplate : Env Tree String String String :=
  { env false true with UpdateMetaGroups := fun _ => .error "empty group" }

/-- A provider whose second filter has a quote that is never closed. -/
def envBadQuery : Env Tree String String String :=
  { env false true with
    heap0 := { heap with criteria := [{ Query := "from:a  from:b", others := "" },
                                      { Query := "subject:\"a b", others := "me@x.org" },
                                      { Query := "label:x list:y", others := "" }] } }

/-- A provider that refuses to create the replacement of `f1`. -/
def envCreateFails : Env Tree String String String :=
  { env false true with
    CreateFilter := fun h p =>
      match h.filterAt p with
      | some f => if f.Id = "f1" then .error "quota" else .ok (f.Id ++ "-new")
      | none => .error "no filter" }

end Sample

end GmailTools

namespace GmailTools

/-! ## Go maps -/

namespace GoMap

variable {V : Type}

theorem lookup_assign_self (m : GoMap V) (k : String) (v : V) :
    (m.assign k v).lookup k = some v := by
  induction m with
  | nil => simp [assign, lookup]
  | cons e rest ih =>
    obtain ⟨k1, v1⟩ := e
    by_cases h : k1 = k
    · simp [assign, lookup, h]
    · simp [assign, lookup, h, ih]

theorem lookup_assign_ne (m : GoMap V) {k k2 : String} (v : V) (h : k ≠ k2) :
    (m.assign k v).lookup k2 = m.lookup k2 := by
  induction m with
  | nil => simp [assign, lookup, h]
  | cons e rest ih =>
    obtain ⟨k1, v1⟩ := e
    by_cases h1 : k1 = k
    · subst h1
      simp [assign, lookup, h]
    · by_cases h2 : k1 = k2
      · subst h2
        simp [assign, lookup, h1]
      · simp [assign, lookup, h1, h2, ih]

theorem lookup_isSome_iff (m : GoMap V) (k : String) :
    (m.lookup k).isSome ↔ k ∈ m.keys := by
  induction m with
  | nil => simp [lookup, keys]
  | cons e rest ih =>
    obtain ⟨k1, v1⟩ := e
    by_cases h : k1 = k
    · simp [lookup, keys, h]
    · have h2 : ¬ k = k1 := fun e => h e.symm
      simp only [keys] at ih
      simp [lookup, keys, h, h2, ih]

theorem lookup_eq_none_iff (m : GoMap V) (k : String) :
    m.lookup k = none ↔ k ∉ m.keys := by
  rw [← lookup_isSome_iff]
  cases m.lookup k <;> simp

theorem mem_of_lookup {m : GoMap V} {k : String} {v : V} (h : m.lookup k = some v) :
    (k, v) ∈ m := by
  induction m with
  | nil => simp [lookup] at h
  | cons e rest ih =>
    obtain ⟨k1, v1⟩ := e
    by_cases h1 : k1 = k
    · simp [lookup, h1] at h
      simp [h1, h]
    · simp [lookup, h1] at h
      exact List.mem_cons_of_mem _ (ih h)

theorem lookup_of_mem {m : GoMap V} {k : String} {v : V} (hn : m.keys.Nodup)
    (h : (k, v) ∈ m) : m.lookup k = some v := by
  induction m with
  | nil => simp at h
  | cons e rest ih =>
    obtain ⟨k1, v1⟩ := e
    simp only [keys, List.map_cons, List.nodup_cons] at hn
    rcases List.mem_cons.mp h with h1 | h1
    · cases h1
      simp [lookup]
    · have hk : k ∈ rest.map Prod.fst := List.mem_map.mpr ⟨(k, v), h1, rfl⟩
      have hne : k1 ≠ k := fun e => hn.1 (e ▸ hk)
      simp [lookup, hne]
      exact ih hn.2 h1

theorem keys_assign_mem (m : GoMap V) (k k2 : String) (v : V) :
    k2 ∈ (m.assign k v).keys ↔ k2 = k ∨ k2 ∈ m.keys := by
  rw [← lookup_isSome_iff, ← lookup_isSome_iff]
  by_cases h : k = k2
  · subst h
    simp [lookup_assign_self]
  · have h2 : ¬ k2 = k := fun e => h e.symm
    simp [lookup_assign_ne m v h, h2]

theorem nodup_keys_assign (m : GoMap V) (k : String) (v : V) (hn : m.keys.Nodup) :
    (m.assign k v).keys.Nodup := by
  induction m with
  | nil => simp [assign, keys]
  | cons e rest ih =>
    obtain ⟨k1, v1⟩ := e
    simp only [keys, List.map_cons, List.nodup_cons] at hn
    by_cases h1 : k1 = k
    · subst h1
      simp only [assign, if_true, keys, List.map_cons, List.nodup_cons]
      exact hn
    · simp only [assign, h1, if_false, keys, List.map_cons, List.nodup_cons]
      refine ⟨?_, ih hn.2⟩
      intro hmem
      have := (keys_assign_mem rest k k1 v).mp hmem
      rcases this with h | h
      · exact h1 h
      · exact hn.1 h

end GoMap

/-! ## Running and stopped states -/

namespace State

variable {T α κ : Type}

theorem andThen_running {s : State T α κ} (k : State T α κ → State T α κ)
    (h : s.status = .running) : s.andThen k = k s := by
  simp [andThen, h]

theorem andThen_stopped {s : State T α κ} (k : State T α κ → State T α κ)
    (h : s.status ≠ .running) : s.andThen k = s := by
  unfold andThen
  split
  · contradiction
  · rfl

/-- A property that holds at the start of a loop and that the body keeps holds
at its end, whether the loop ran through or stopped early. -/
theorem forEach_inv {X : Type} (body : State T α κ → X → State T α κ)
    (I : State T α κ → Prop) (xs : List X)
    (hbody : ∀ s x, x ∈ xs → s.status = .running → I s → I (body s x)) :
    ∀ s, s.status = .running → I s → I (forEach body xs s) := by
  induction xs with
  | nil => intro s _ hs; exact hs
  | cons x rest ih =>
    intro s hrun hs
    have h1 : I (body s x) := hbody s x (List.mem_cons_self _ _) hrun hs
    by_cases hr : (body s x).status = .running
    · simp only [forEach, andThen_running _ hr]
      exact ih (fun s y hy => hbody s y (List.mem_cons_of_mem _ hy)) _ hr h1
    · simp only [forEach, andThen_stopped _ hr]
      exact h1

theorem forEach_append {X : Type} (body : State T α κ → X → State T α κ)
    (xs ys : List X) (s : State T α κ)
    (h : (forEach body xs s).status = .running) :
    forEach body (xs ++ ys) s = forEach body ys (forEach body xs s) := by
  induction xs generalizing s with
  | nil => rfl
  | cons x rest ih =>
    by_cases hr : (body s x).status = .running
    · simp only [forEach, andThen_running _ hr, List.cons_append] at h ⊢
      exact ih _ h
    · simp only [forEach, andThen_stopped _ hr] at h
      exact absurd h hr

end State

end GmailTools
namespace GmailTools

/-! ## The heap only grows -/

namespace Heap

variable {α κ : Type}

theorem Extends.refl (h : Heap α κ) : Extends h h :=
  ⟨⟨[], by simp⟩, ⟨[], by simp⟩⟩

theorem Extends.trans {h0 h1 h2 : Heap α κ} (a : Extends h0 h1) (b : Extends h1 h2) :
    Extends h0 h2 := by
  obtain ⟨⟨f1, hf1⟩, ⟨c1, hc1⟩⟩ := a
  obtain ⟨⟨f2, hf2⟩, ⟨c2, hc2⟩⟩ := b
  exact ⟨⟨f1 ++ f2, by rw [hf2, hf1, List.append_assoc]⟩,
         ⟨c1 ++ c2, by rw [hc2, hc1, List.append_assoc]⟩⟩

theorem Extends.filterAt {h0 h : Heap α κ} (e : Extends h0 h) {p : Ptr} {f : Filter α}
    (hp : h0.filterAt p = some f) : h.filterAt p = some f := by
  obtain ⟨⟨fs, hfs⟩, _⟩ := e
  cases p with
  | none => simp [Heap.filterAt] at hp
  | some a =>
    simp only [Heap.filterAt] at hp ⊢
    rw [hfs]
    have hlt : a < h0.filters.length := by
      rcases Nat.lt_or_ge a h0.filters.length with h | h
      · exact h
      · rw [List.getElem?_eq_none h] at hp; cases hp
    rw [List.getElem?_append_left hlt]
    exact hp

theorem Extends.criteriaAt {h0 h : Heap α κ} (e : Extends h0 h) {p : Ptr}
    {c : FilterCriteria κ} (hp : h0.criteriaAt p = some c) : h.criteriaAt p = some c := by
  obtain ⟨_, ⟨cs, hcs⟩⟩ := e
  cases p with
  | none => simp [Heap.criteriaAt] at hp
  | some a =>
    simp only [Heap.criteriaAt] at hp ⊢
    rw [hcs]
    have hlt : a < h0.criteria.length := by
      rcases Nat.lt_or_ge a h0.criteria.length with h | h
      · exact h
      · rw [List.getElem?_eq_none h] at hp; cases hp
    rw [List.getElem?_append_left hlt]
    exact hp

theorem Extends.filters_getElem? {h0 h : Heap α κ} (e : Extends h0 h) {a : Nat}
    (ha : a < h0.filters.length) : h.filters[a]? = h0.filters[a]? := by
  obtain ⟨⟨fs, hfs⟩, _⟩ := e
  rw [hfs, List.getElem?_append_left ha]

theorem Extends.criteria_getElem? {h0 h : Heap α κ} (e : Extends h0 h) {a : Nat}
    (ha : a < h0.criteria.length) : h.criteria[a]? = h0.criteria[a]? := by
  obtain ⟨_, ⟨cs, hcs⟩⟩ := e
  rw [hcs, List.getElem?_append_left ha]

theorem Extends.filters_length {h0 h : Heap α κ} (e : Extends h0 h) :
    h0.filters.length ≤ h.filters.length := by
  obtain ⟨⟨fs, hfs⟩, _⟩ := e
  rw [hfs, List.length_append]; omega

theorem Extends.criteria_length {h0 h : Heap α κ} (e : Extends h0 h) :
    h0.criteria.length ≤ h.criteria.length := by
  obtain ⟨_, ⟨cs, hcs⟩⟩ := e
  rw [hcs, List.length_append]; omega

end Heap

section Update

variable {T R α κ : Type} [Inhabited α] [Inhabited κ]

theorem set_length_append_singleton {β : Type} (l : List β) (x y : β) :
    (l ++ [x]).set l.length y = l ++ [y] := by
  induction l with
  | nil => rfl
  | cons a l ih => simp [List.set, ih]

/-- What lines 55-61 amount to: one new filter and one new criteria object at
the two next free addresses; nothing else is written. -/
theorem copyFilter_eq (h : Heap α κ) (oldF : Filter α) (oldC : FilterCriteria κ)
    (newQuery : String) :
    copyFilter h oldF oldC newQuery =
      ({ filters := h.filters ++ [{ oldF with Criteria := some h.criteria.length }],
         criteria := h.criteria ++ [{ oldC with Query := newQuery }] },
       h.filters.length) := by
  simp [copyFilter, Heap.newFilter, Heap.newCriteria, Heap.storeFilter, Heap.storeCriteria,
    set_length_append_singleton]

theorem copyFilter_extends (h : Heap α κ) (oldF : Filter α) (oldC : FilterCriteria κ)
    (newQuery : String) : Heap.Extends h (copyFilter h oldF oldC newQuery).1 := by
  rw [copyFilter_eq]
  exact ⟨⟨_, rfl⟩, ⟨_, rfl⟩⟩

end Update

end GmailTools

namespace GmailTools

/-! ## The first loop -/

section Parse

variable {T R α κ : Type}

theorem parseBody_inv (env : Env T R α κ) (s : State T α κ) (fltr : Ptr)
    (hrun : s.status = .running) (hs : ParseInv env s) : ParseInv env (parseBody env s fltr) := by
  obtain ⟨hheap, hupd, hrec, hsub, hnd, hq⟩ := hs
  unfold parseBody
  cases hf : s.heap.filterAt fltr with
  | none =>
    exact ⟨hheap, hupd, fun h => by simp [State.halt] at h, hsub, hnd, hq⟩
  | some f =>
    simp only
    cases hc : s.heap.criteriaAt f.Criteria with
    | none =>
      refine ⟨hheap, hupd, fun h => by simp [State.halt] at h, ?_, hnd, hq⟩
      intro k hk
      exact (GoMap.keys_assign_mem _ _ _ _).mpr (Or.inr (hsub k hk))
    | some c =>
      have hrec1 : Recorded env.heap0 (s.oldFiltersById.assign f.Id fltr) := by
        intro id p hl
        by_cases hid : f.Id = id
        · subst hid
          rw [GoMap.lookup_assign_self] at hl
          cases hl
          refine ⟨f, c, ?_, rfl⟩
          rw [← hheap]
          simp [Heap.filterOf, hf, hc]
        · rw [GoMap.lookup_assign_ne _ _ hid] at hl
          exact hrec hrun id p hl
      have hsub1 : ∀ k ∈ s.filterQueryElems.keys, k ∈ (s.oldFiltersById.assign f.Id fltr).keys :=
        fun k hk => (GoMap.keys_assign_mem _ _ _ _).mpr (Or.inr (hsub k hk))
      simp only
      by_cases hne : c.Query ≠ ""
      · simp only [hne, if_true, ne_eq, not_false_eq_true]
        cases hpe : env.ParseElement c.Query with
        | error err =>
          refine ⟨hheap, hupd, fun h => by simp [State.halt] at h, hsub1, hnd, ?_⟩
          intro ev hev
          simp only [State.halt, State.emit, List.mem_append, List.mem_singleton] at hev
          rcases hev with h | h
          · exact hq ev h
          · subst h; exact ⟨rfl, rfl⟩
        | ok t =>
          refine ⟨hheap, hupd, fun _ => hrec1, ?_, ?_, ?_⟩
          · intro k hk
            simp only [State.emit] at hk ⊢
            rcases (GoMap.keys_assign_mem _ _ _ _).mp hk with h | h
            · exact (GoMap.keys_assign_mem _ _ _ _).mpr (Or.inl h)
            · exact hsub1 k h
          · exact GoMap.nodup_keys_assign _ _ _ hnd
          · intro ev hev
            simp only [State.emit, List.mem_append, List.mem_singleton] at hev
            rcases hev with h | h
            · exact hq ev h
            · subst h; exact ⟨rfl, rfl⟩
      · simp only [hne, if_false]
        exact ⟨hheap, hupd, fun _ => hrec1, hsub1, hnd, hq⟩

theorem parsePhase_inv (env : Env T R α κ) : ParseInv env (parsePhase env) := by
  unfold parsePhase
  cases hg : env.GetFilters with
  | error err =>
    refine ⟨rfl, rfl, fun h => by simp [State.halt] at h, ?_, ?_, ?_⟩
    · intro k hk; simp [State.halt, State.emit, initState, GoMap.keys] at hk
    · simp [State.halt, State.emit, initState, GoMap.keys]
    · intro ev hev
      simp [State.halt, State.emit, initState] at hev
      subst hev; exact ⟨rfl, rfl⟩
  | ok filters =>
    apply State.forEach_inv (parseBody env) (ParseInv env) filters
      (fun s x _ hrun hs => parseBody_inv env s x hrun hs)
    · rfl
    · refine ⟨rfl, rfl, ?_, ?_, ?_, ?_⟩
      · intro _ id p hl
        simp [State.emit, initState, GoMap.lookup] at hl
      · intro k hk; simp [State.emit, initState, GoMap.keys] at hk
      · simp [State.emit, initState, GoMap.keys]
      · intro ev hev
        simp [State.emit, initState] at hev
        subst hev; exact ⟨rfl, rfl⟩

end Parse

end GmailTools

namespace GmailTools

/-! ## The second loop -/

section Diff

variable {T R α κ : Type} [Inhabited α] [Inhabited κ]

omit [Inhabited α] [Inhabited κ] in
theorem IsCopy.mono {h0 h h1 : Heap α κ} {old : GoMap Ptr} {id : String} {p : Ptr}
    {q : String} (e : Heap.Extends h h1) (c : IsCopy h0 h old id p q) :
    IsCopy h0 h1 old id p q := by
  obtain ⟨a, ca, po, fo, co, hp, ha, hca, hl, hfo, hfa, hcc⟩ := c
  refine ⟨a, ca, po, fo, co, hp, ha, hca, hl, hfo, ?_, ?_⟩
  · exact e.filterAt (p := some a) hfa
  · exact e.criteriaAt (p := some ca) hcc

omit [Inhabited α] [Inhabited κ] in
theorem Heap.filterOf_extends {h0 h : Heap α κ} (e : Heap.Extends h0 h) {p : Ptr}
    {f : Filter α} {c : FilterCriteria κ} (hp : h0.filterOf p = some (f, c)) :
    h.filterOf p = some (f, c) := by
  unfold Heap.filterOf at hp ⊢
  cases hf : h0.filterAt p with
  | none => simp [hf] at hp
  | some f1 =>
    simp only [hf] at hp
    cases hc : h0.criteriaAt f1.Criteria with
    | none => simp [hc] at hp
    | some c1 =>
      simp only [hc, Option.some.injEq, Prod.mk.injEq] at hp
      obtain ⟨rfl, rfl⟩ := hp
      simp [e.filterAt hf, e.criteriaAt hc]

/-- The body of the second loop when the filter recorded for the id has the
query the tree serialises to: nothing happens. -/
theorem diffBody_same (env : Env T R α κ) (s : State T α κ) (id : String) (t : T)
    (po : Ptr) (fo : Filter α) (co : FilterCriteria κ)
    (hl : s.oldFiltersById.lookup id = some po) (hfo : s.heap.filterOf po = some (fo, co))
    (hq : env.FullFilterStr t = co.Query) : diffBody env s (id, t) = s := by
  unfold Heap.filterOf at hfo
  cases hf : s.heap.filterAt po with
  | none => simp [hf] at hfo
  | some f1 =>
    simp only [hf] at hfo
    cases hc : s.heap.criteriaAt f1.Criteria with
    | none => simp [hc] at hfo
    | some c1 =>
      simp only [hc, Option.some.injEq, Prod.mk.injEq] at hfo
      obtain ⟨rfl, rfl⟩ := hfo
      simp [diffBody, hl, hf, hc, hq]

/-- The body of the second loop when the filter recorded for the id has another
query than the tree serialises to: a copy is made and entered under the id. -/
theorem diffBody_differs (env : Env T R α κ) (s : State T α κ) (id : String) (t : T)
    (po : Ptr) (fo : Filter α) (co : FilterCriteria κ)
    (hl : s.oldFiltersById.lookup id = some po) (hfo : s.heap.filterOf po = some (fo, co))
    (hq : env.FullFilterStr t ≠ co.Query) :
    let s1 := diffBody env s (id, t)
    s1.status = s.status ∧ s1.oldFiltersById = s.oldFiltersById ∧
    s1.filterQueryElems = s.filterQueryElems ∧
    s1.heap = { filters := s.heap.filters ++ [{ fo with Criteria := some s.heap.criteria.length }],
                criteria := s.heap.criteria ++ [{ co with Query := env.FullFilterStr t }] } ∧
    s1.updatedFilters = s.updatedFilters.assign id (some s.heap.filters.length) ∧
    (∀ ev ∈ s1.trace, ev ∈ s.trace ∨
      (ev.isApi = false ∧ ev.isConfirm = false ∧ ev.parsedQuery = none)) := by
  unfold Heap.filterOf at hfo
  cases hf : s.heap.filterAt po with
  | none => simp [hf] at hfo
  | some f1 =>
    simp only [hf] at hfo
    cases hc : s.heap.criteriaAt f1.Criteria with
    | none => simp [hc] at hfo
    | some c1 =>
      simp only [hc, Option.some.injEq, Prod.mk.injEq] at hfo
      obtain ⟨rfl, rfl⟩ := hfo
      by_cases hh : s.hasPrintedHeader = true
      · simp only [diffBody, hl, Option.getD_some, hf, hc, ne_eq, hq, not_false_eq_true,
          if_true, hh, copyFilter_eq, true_and]
        intro ev hev
        simp only [List.mem_append, List.mem_cons, List.mem_singleton, List.not_mem_nil,
          or_false] at hev
        rcases hev with h | h | h
        · exact Or.inl h
        · subst h; exact Or.inr ⟨rfl, rfl, rfl⟩
        · subst h; exact Or.inr ⟨rfl, rfl, rfl⟩
      · have hh1 : s.hasPrintedHeader = false := by simpa using hh
        simp only [diffBody, hl, Option.getD_some, hf, hc, ne_eq, hq, not_false_eq_true,
          if_true, hh1, copyFilter_eq, true_and, State.emit, Bool.false_eq_true, if_false]
        intro ev hev
        simp only [List.mem_append, List.mem_cons, List.mem_singleton, List.not_mem_nil,
          or_false] at hev
        rcases hev with (h | h) | h | h
        · exact Or.inl h
        · subst h; exact Or.inr ⟨rfl, rfl, rfl⟩
        · subst h; exact Or.inr ⟨rfl, rfl, rfl⟩
        · subst h; exact Or.inr ⟨rfl, rfl, rfl⟩

/-- The body of the second loop when no filter with criteria is recorded for the
id: the run panics. -/
theorem diffBody_panics (env : Env T R α κ) (s : State T α κ) (id : String) (t : T)
    (hfo : s.heap.filterOf ((s.oldFiltersById.lookup id).getD none) = none) :
    diffBody env s (id, t) = s.halt .panicked := by
  unfold Heap.filterOf at hfo
  cases hf : s.heap.filterAt ((s.oldFiltersById.lookup id).getD none) with
  | none => simp [diffBody, hf]
  | some f1 =>
    simp only [hf] at hfo
    cases hc : s.heap.criteriaAt f1.Criteria with
    | none => simp [diffBody, hf, hc]
    | some c1 => simp [hc] at hfo

omit [Inhabited α] [Inhabited κ] in
theorem Heap.filterOf_none (h : Heap α κ) : h.filterOf none = none := by
  simp [Heap.filterOf, Heap.filterAt]

omit [Inhabited α] [Inhabited κ] in
/-- In a state of the second loop, what the recorded pointer of an id leads to
is what it led to in the heap of the provider. -/
theorem DiffInv.recorded_filterOf {env : Env T R α κ} {L : List (String × T)}
    {s0 s : State T α κ} (hs : DiffInv env L s0 s)
    (hrec : Recorded env.heap0 s0.oldFiltersById) {id : String} {fo : Filter α}
    {co : FilterCriteria κ}
    (hfo : s.heap.filterOf ((s.oldFiltersById.lookup id).getD none) = some (fo, co)) :
    ∃ po, s.oldFiltersById.lookup id = some po ∧ s.heap.filterOf po = some (fo, co) ∧
      env.heap0.filterOf po = some (fo, co) := by
  cases hl : s.oldFiltersById.lookup id with
  | none => simp [hl, Heap.filterOf_none] at hfo
  | some po =>
    simp only [hl, Option.getD_some] at hfo
    refine ⟨po, rfl, hfo, ?_⟩
    obtain ⟨f1, c1, h1, _⟩ := hrec id po (hs.old_eq ▸ hl)
    have h2 := Heap.filterOf_extends hs.ext h1
    rw [hfo] at h2
    cases h2
    exact h1

theorem diffBody_inv (env : Env T R α κ) (L : List (String × T)) (s0 s : State T α κ)
    (hrec : Recorded env.heap0 s0.oldFiltersById) (e : String × T) (he : e ∈ L)
    (hs : DiffInv env L s0 s) : DiffInv env L s0 (diffBody env s e) := by
  obtain ⟨id, t⟩ := e
  cases hfo : s.heap.filterOf ((s.oldFiltersById.lookup id).getD none) with
  | none =>
    rw [diffBody_panics env s id t hfo]
    exact ⟨hs.ext, hs.old_eq, hs.elems_eq, hs.cands, hs.quiet⟩
  | some fc =>
    obtain ⟨fo, co⟩ := fc
    obtain ⟨po, hl, hf1, hf0⟩ := hs.recorded_filterOf hrec hfo
    by_cases hq : env.FullFilterStr t = co.Query
    · rw [diffBody_same env s id t po fo co hl hf1 hq]
      exact hs
    · obtain ⟨_, hold, hel, hheap, hupd, htr⟩ := diffBody_differs env s id t po fo co hl hf1 hq
      have hext : Heap.Extends s.heap (diffBody env s (id, t)).heap := by
        rw [hheap]; exact ⟨⟨_, rfl⟩, ⟨_, rfl⟩⟩
      refine ⟨hs.ext.trans hext, hold.trans hs.old_eq, hel.trans hs.elems_eq, ?_, ?_⟩
      · intro id1 p hp
        rw [hupd] at hp
        by_cases hid : id = id1
        · subst hid
          rw [GoMap.lookup_assign_self] at hp
          cases hp
          refine ⟨t, he, s.heap.filters.length, s.heap.criteria.length, po, fo, co, rfl,
            hs.ext.filters_length, hs.ext.criteria_length, hs.old_eq ▸ hl, hf0, ?_, ?_⟩
          · rw [hheap]; simp
          · rw [hheap]; simp
        · rw [GoMap.lookup_assign_ne _ _ hid] at hp
          obtain ⟨t1, ht1, hc1⟩ := hs.cands id1 p hp
          exact ⟨t1, ht1, hc1.mono hext⟩
      · intro ev hev
        rcases htr ev hev with h | h
        · exact hs.quiet ev h
        · exact ⟨h.1, h.2.1⟩

theorem diffLoop_inv (env : Env T R α κ) (L ks : List (String × T)) (s0 s : State T α κ)
    (hrec : Recorded env.heap0 s0.oldFiltersById) (hsub : ∀ e ∈ ks, e ∈ L)
    (hrun : s.status = .running) (hs : DiffInv env L s0 s) :
    DiffInv env L s0 (diffLoop env ks s) :=
  State.forEach_inv (diffBody env) (DiffInv env L s0) ks
    (fun s1 x hx _ h1 => diffBody_inv env L s0 s1 hrec x (hsub x hx) h1) s hrun hs

/-- The second loop, run on entries whose ids all have a recorded filter, does
not stop, and enters exactly the ids whose tree serialises to another string
than the recorded query. -/
theorem diffLoop_emitted (env : Env T R α κ) (L : List (String × T)) (s0 : State T α κ)
    (hrec : Recorded env.heap0 s0.oldFiltersById) (ks : List (String × T)) :
    ∀ s : State T α κ, s.status = .running → DiffInv env L s0 s →
      (∀ e ∈ ks, e.1 ∈ s0.oldFiltersById.keys) → (∀ e ∈ ks, e ∈ L) →
      (diffLoop env ks s).status = .running ∧
      ∀ id, ((diffLoop env ks s).updatedFilters.lookup id).isSome ↔
        (s.updatedFilters.lookup id).isSome ∨
          ∃ t q, (id, t) ∈ ks ∧ originalQuery env.heap0 s0.oldFiltersById id = some q ∧
            env.FullFilterStr t ≠ q := by
  induction ks with
  | nil =>
    intro s hrun _ _ _
    refine ⟨hrun, fun id => ?_⟩
    simp [diffLoop, State.forEach]
  | cons e rest ih =>
    intro s hrun hs hkeys hsub
    obtain ⟨id, t⟩ := e
    have hk : id ∈ s0.oldFiltersById.keys := hkeys (id, t) (List.mem_cons_self _ _)
    obtain ⟨po, hpo⟩ := Option.isSome_iff_exists.mp ((GoMap.lookup_isSome_iff _ _).mpr hk)
    obtain ⟨fo, co, hf0, _⟩ := hrec id po hpo
    have hl : s.oldFiltersById.lookup id = some po := by rw [hs.old_eq]; exact hpo
    have hf1 : s.heap.filterOf po = some (fo, co) := Heap.filterOf_extends hs.ext hf0
    have horig : originalQuery env.heap0 s0.oldFiltersById id = some co.Query := by
      simp [originalQuery, hpo, hf0]
    have hinv1 := diffBody_inv env L s0 s hrec (id, t) (hsub _ (List.mem_cons_self _ _)) hs
    have hkeys1 : ∀ e ∈ rest, e.1 ∈ s0.oldFiltersById.keys :=
      fun e he => hkeys e (List.mem_cons_of_mem _ he)
    have hsub1 : ∀ e ∈ rest, e ∈ L := fun e he => hsub e (List.mem_cons_of_mem _ he)
    by_cases hq : env.FullFilterStr t = co.Query
    · have hb := diffBody_same env s id t po fo co hl hf1 hq
      have hr1 : (diffBody env s (id, t)).status = .running := by rw [hb]; exact hrun
      simp only [diffLoop, State.forEach, State.andThen_running _ hr1]
      obtain ⟨h1, h2⟩ := ih (diffBody env s (id, t)) hr1 hinv1 hkeys1 hsub1
      refine ⟨h1, fun id1 => ?_⟩
      simp only [diffLoop] at h2
      rw [h2 id1, hb]
      constructor
      · rintro (h | ⟨t1, q, hm, h⟩)
        · exact Or.inl h
        · exact Or.inr ⟨t1, q, List.mem_cons_of_mem _ hm, h⟩
      · rintro (h | ⟨t1, q, hm, ho, hne⟩)
        · exact Or.inl h
        · rcases List.mem_cons.mp hm with h | h
          · cases h
            rw [horig] at ho
            cases ho
            exact absurd hq hne
          · exact Or.inr ⟨t1, q, h, ho, hne⟩
    · obtain ⟨hst, _, _, _, hupd, _⟩ := diffBody_differs env s id t po fo co hl hf1 hq
      have hr1 : (diffBody env s (id, t)).status = .running := hst.trans hrun
      simp only [diffLoop, State.forEach, State.andThen_running _ hr1]
      obtain ⟨h1, h2⟩ := ih (diffBody env s (id, t)) hr1 hinv1 hkeys1 hsub1
      refine ⟨h1, fun id1 => ?_⟩
      simp only [diffLoop] at h2
      rw [h2 id1, hupd]
      by_cases hid : id = id1
      · subst hid
        simp only [GoMap.lookup_assign_self, Option.isSome_some, true_or, true_iff]
        exact Or.inr ⟨t, co.Query, List.mem_cons_self _ _, horig, hq⟩
      · rw [GoMap.lookup_assign_ne _ _ hid]
        constructor
        · rintro (h | ⟨t1, q, hm, h⟩)
          · exact Or.inl h
          · exact Or.inr ⟨t1, q, List.mem_cons_of_mem _ hm, h⟩
        · rintro (h | ⟨t1, q, hm, ho, hne⟩)
          · exact Or.inl h
          · rcases List.mem_cons.mp hm with h | h
            · cases h
              exact absurd rfl hid
            · exact Or.inr ⟨t1, q, h, ho, hne⟩

end Diff

end GmailTools

namespace GmailTools

/-! ## The parts of the command, put together -/

section Phases

variable {T R α κ : Type} [Inhabited α] [Inhabited κ]

omit [Inhabited α] [Inhabited κ] in
theorem metaGroupsStep_ok (env : Env T R α κ) (s : State T α κ) (m : GoMap T)
    (h : env.UpdateMetaGroups s.filterQueryElems = .ok m) :
    metaGroupsStep env s = { s.emit [.updateMetaGroups true] with filterQueryElems := m } := by
  simp [metaGroupsStep, h]

omit [Inhabited α] [Inhabited κ] in
theorem metaGroupsStep_error (env : Env T R α κ) (s : State T α κ) (err : String)
    (h : env.UpdateMetaGroups s.filterQueryElems = .error err) :
    metaGroupsStep env s =
      (s.emit [.updateMetaGroups false]).halt (.fatal ("Template error: " ++ err)) := by
  simp [metaGroupsStep, h]

omit [Inhabited α] [Inhabited κ] in
/-- Whatever the template engine does, the call leaves the heap, the recorded
filters and the (empty) map of candidates as the first loop left them. -/
theorem metaGroupsPhase_frame (env : Env T R α κ) :
    (metaGroupsPhase env).heap = env.heap0 ∧
    (metaGroupsPhase env).oldFiltersById = (parsePhase env).oldFiltersById ∧
    (metaGroupsPhase env).updatedFilters = [] ∧
    (∀ ev ∈ (metaGroupsPhase env).trace, ev.isApi = false ∧ ev.isConfirm = false) ∧
    ((metaGroupsPhase env).status = .running → (parsePhase env).status = .running) := by
  have hp := parsePhase_inv env
  unfold metaGroupsPhase
  by_cases hr : (parsePhase env).status = .running
  · rw [State.andThen_running _ hr]
    cases hu : env.UpdateMetaGroups (parsePhase env).filterQueryElems with
    | error err =>
      rw [metaGroupsStep_error env _ err hu]
      refine ⟨hp.heap_eq, rfl, hp.updated, ?_, fun _ => hr⟩
      intro ev hev
      simp only [State.halt, State.emit, List.mem_append, List.mem_singleton] at hev
      rcases hev with h | h
      · exact hp.quiet ev h
      · subst h; exact ⟨rfl, rfl⟩
    | ok m =>
      rw [metaGroupsStep_ok env _ m hu]
      refine ⟨hp.heap_eq, rfl, hp.updated, ?_, fun _ => hr⟩
      intro ev hev
      simp only [State.emit, List.mem_append, List.mem_singleton] at hev
      rcases hev with h | h
      · exact hp.quiet ev h
      · subst h; exact ⟨rfl, rfl⟩
  · rw [State.andThen_stopped _ hr]
    exact ⟨hp.heap_eq, rfl, hp.updated, hp.quiet, fun h => absurd h hr⟩

omit [Inhabited α] [Inhabited κ] in
theorem metaGroupsPhase_recorded (env : Env T R α κ)
    (hr : (metaGroupsPhase env).status = .running) :
    Recorded env.heap0 (metaGroupsPhase env).oldFiltersById := by
  obtain ⟨_, hold, _, _, hrun⟩ := metaGroupsPhase_frame env
  rw [hold]
  exact (parsePhase_inv env).recorded (hrun hr)

omit [Inhabited α] [Inhabited κ] in
theorem diffInv_start (env : Env T R α κ) (L : List (String × T)) :
    DiffInv env L (metaGroupsPhase env) (metaGroupsPhase env) := by
  obtain ⟨hheap, _, hupd, hq, _⟩ := metaGroupsPhase_frame env
  refine ⟨hheap ▸ Heap.Extends.refl _, rfl, rfl, ?_, hq⟩
  intro id p hp
  rw [hupd] at hp
  simp [GoMap.lookup] at hp

/-- What holds when the second loop is over, however the run went so far. -/
theorem diffPhase_inv (env : Env T R α κ) :
    DiffInv env (env.rangeElems (metaGroupsPhase env).filterQueryElems)
      (metaGroupsPhase env) (diffPhase env) := by
  unfold diffPhase
  by_cases hr : (metaGroupsPhase env).status = .running
  · rw [State.andThen_running _ hr]
    exact diffLoop_inv env _ _ _ _ (metaGroupsPhase_recorded env hr) (fun _ h => h) hr
      (diffInv_start env _)
  · rw [State.andThen_stopped _ hr]
    exact diffInv_start env _

omit [Inhabited α] [Inhabited κ] in
theorem commitBody_createFails (env : Env T R α κ) (s : State T α κ) (id : String) (fltr : Ptr)
    (err : String) (h : env.CreateFilter s.heap fltr = .error err) :
    commitBody env s (id, fltr) =
      (s.emit [.createFilter fltr false]).halt (.fatal ("Failed to create filter: " ++ err)) := by
  simp [commitBody, h]

omit [Inhabited α] [Inhabited κ] in
theorem commitBody_deleteFails (env : Env T R α κ) (s : State T α κ) (id : String) (fltr : Ptr)
    (cid err : String) (h : env.CreateFilter s.heap fltr = .ok cid)
    (hd : env.DeleteFilter id = some err) :
    commitBody env s (id, fltr) =
      ((s.emit [.createFilter fltr true, .createdMsg cid]).emit [.deleteFilter id false]).halt
        (.fatal ("Failed to delete filter " ++ id ++ ": " ++ err ++ "\n")) := by
  simp [commitBody, h, hd]

omit [Inhabited α] [Inhabited κ] in
theorem commitBody_ok (env : Env T R α κ) (s : State T α κ) (id : String) (fltr : Ptr)
    (cid : String) (h : env.CreateFilter s.heap fltr = .ok cid)
    (hd : env.DeleteFilter id = none) :
    commitBody env s (id, fltr) =
      (s.emit [.createFilter fltr true, .createdMsg cid]).emit
        [.deleteFilter id true, .deletedMsg id] := by
  simp [commitBody, h, hd]

omit [Inhabited α] [Inhabited κ] in
theorem commitBody_frame (env : Env T R α κ) (s : State T α κ) (e : String × Ptr) :
    (commitBody env s e).heap = s.heap ∧
    (commitBody env s e).oldFiltersById = s.oldFiltersById ∧
    (commitBody env s e).filterQueryElems = s.filterQueryElems ∧
    (commitBody env s e).updatedFilters = s.updatedFilters := by
  obtain ⟨id, fltr⟩ := e
  cases hc : env.CreateFilter s.heap fltr with
  | error err =>
    rw [commitBody_createFails env s id fltr err hc]
    exact ⟨rfl, rfl, rfl, rfl⟩
  | ok cid =>
    cases hd : env.DeleteFilter id with
    | none =>
      rw [commitBody_ok env s id fltr cid hc hd]
      exact ⟨rfl, rfl, rfl, rfl⟩
    | some err =>
      rw [commitBody_deleteFails env s id fltr cid err hc hd]
      exact ⟨rfl, rfl, rfl, rfl⟩

omit [Inhabited α] [Inhabited κ] in
theorem commitLoop_frame (env : Env T R α κ) (ks : List (String × Ptr)) (s : State T α κ) :
    (commitLoop env ks s).heap = s.heap ∧
    (commitLoop env ks s).oldFiltersById = s.oldFiltersById ∧
    (commitLoop env ks s).filterQueryElems = s.filterQueryElems ∧
    (commitLoop env ks s).updatedFilters = s.updatedFilters := by
  induction ks generalizing s with
  | nil => exact ⟨rfl, rfl, rfl, rfl⟩
  | cons e rest ih =>
    obtain ⟨h1, h2, h3, h4⟩ := commitBody_frame env s e
    by_cases hr : (commitBody env s e).status = .running
    · simp only [commitLoop, State.forEach, State.andThen_running _ hr]
      obtain ⟨g1, g2, g3, g4⟩ := ih (commitBody env s e)
      simp only [commitLoop] at g1 g2 g3 g4
      exact ⟨g1.trans h1, g2.trans h2, g3.trans h3, g4.trans h4⟩
    · simp only [commitLoop, State.forEach, State.andThen_stopped _ hr]
      exact ⟨h1, h2, h3, h4⟩

omit [Inhabited α] [Inhabited κ] in
theorem andThen_halt_frame (s : State T α κ) (st : Status) :
    (s.andThen (fun s2 => s2.halt st)).heap = s.heap ∧
    (s.andThen (fun s2 => s2.halt st)).oldFiltersById = s.oldFiltersById ∧
    (s.andThen (fun s2 => s2.halt st)).filterQueryElems = s.filterQueryElems ∧
    (s.andThen (fun s2 => s2.halt st)).updatedFilters = s.updatedFilters ∧
    (s.andThen (fun s2 => s2.halt st)).trace = s.trace ∧
    (s.andThen (fun s2 => s2.halt st)).status ≠ .running ∨ st = .running := by
  by_cases hr : s.status = .running
  · rw [State.andThen_running _ hr]
    by_cases hst : st = .running
    · exact Or.inr hst
    · exact Or.inl ⟨rfl, rfl, rfl, rfl, rfl, hst⟩
  · rw [State.andThen_stopped _ hr]
    exact Or.inl ⟨rfl, rfl, rfl, rfl, rfl, hr⟩

omit [Inhabited α] [Inhabited κ] in
theorem commitStep_dry (env : Env T R α κ) (s : State T α κ) (hd : env.DryRun = true) :
    commitStep env s =
      (s.emit [.lprintln .Quietable "Skipping committing changes (--dry provided)"]).halt
        .done := by
  simp [commitStep, hd]

omit [Inhabited α] [Inhabited κ] in
theorem commitStep_none (env : Env T R α κ) (s : State T α κ) (hd : env.DryRun = false)
    (h0 : s.updatedFilters.length = 0) :
    commitStep env s = (s.emit [.lprintln .Verbose "No updates to be made"]).halt .done := by
  simp [commitStep, hd, h0]

omit [Inhabited α] [Inhabited κ] in
theorem commitStep_declined (env : Env T R α κ) (s : State T α κ) (hd : env.DryRun = false)
    (h0 : s.updatedFilters.length ≠ 0) (ha : (askConfirm env s).1 = false) :
    commitStep env s = (s.emit [(askConfirm env s).2]).halt .done := by
  simp [commitStep, hd, h0, ha]

omit [Inhabited α] [Inhabited κ] in
theorem commitStep_confirmed (env : Env T R α κ) (s : State T α κ) (hd : env.DryRun = false)
    (h0 : s.updatedFilters.length ≠ 0) (ha : (askConfirm env s).1 = true) :
    commitStep env s =
      (commitLoop env (env.rangeUpdated s.updatedFilters) (s.emit [(askConfirm env s).2])).andThen
        (fun s2 => s2.halt .done) := by
  simp [commitStep, hd, h0, ha, State.emit]

omit [Inhabited α] [Inhabited κ] in
/-- The four ways the last part of the command can go. -/
theorem commitStep_cases (env : Env T R α κ) (s : State T α κ) :
    (env.DryRun = true ∧ commitStep env s =
      (s.emit [.lprintln .Quietable "Skipping committing changes (--dry provided)"]).halt .done)
    ∨ (env.DryRun = false ∧ s.updatedFilters.length = 0 ∧ commitStep env s =
        (s.emit [.lprintln .Verbose "No updates to be made"]).halt .done)
    ∨ (env.DryRun = false ∧ s.updatedFilters.length ≠ 0 ∧ (askConfirm env s).1 = false ∧
        commitStep env s = (s.emit [(askConfirm env s).2]).halt .done)
    ∨ (env.DryRun = false ∧ s.updatedFilters.length ≠ 0 ∧ (askConfirm env s).1 = true ∧
        commitStep env s =
          (commitLoop env (env.rangeUpdated s.updatedFilters)
            (s.emit [(askConfirm env s).2])).andThen (fun s2 => s2.halt .done)) := by
  cases hd : env.DryRun with
  | true => exact Or.inl ⟨rfl, commitStep_dry env s hd⟩
  | false =>
    by_cases h0 : s.updatedFilters.length = 0
    · exact Or.inr (Or.inl ⟨rfl, h0, commitStep_none env s hd h0⟩)
    · cases ha : (askConfirm env s).1 with
      | false => exact Or.inr (Or.inr (Or.inl ⟨rfl, h0, rfl, commitStep_declined env s hd h0 ha⟩))
      | true => exact Or.inr (Or.inr (Or.inr ⟨rfl, h0, rfl, commitStep_confirmed env s hd h0 ha⟩))

omit [Inhabited α] [Inhabited κ] in
/-- The last part of the command writes to no object and to no map. -/
theorem commitStep_frame (env : Env T R α κ) (s : State T α κ) :
    (commitStep env s).heap = s.heap ∧
    (commitStep env s).oldFiltersById = s.oldFiltersById ∧
    (commitStep env s).filterQueryElems = s.filterQueryElems ∧
    (commitStep env s).updatedFilters = s.updatedFilters ∧
    (commitStep env s).status ≠ .running := by
  rcases commitStep_cases env s with ⟨_, h⟩ | ⟨_, _, h⟩ | ⟨_, _, _, h⟩ | ⟨_, _, _, h⟩
  · rw [h]; exact ⟨rfl, rfl, rfl, rfl, by simp [State.halt]⟩
  · rw [h]; exact ⟨rfl, rfl, rfl, rfl, by simp [State.halt]⟩
  · rw [h]; exact ⟨rfl, rfl, rfl, rfl, by simp [State.halt]⟩
  · rw [h]
    rcases andThen_halt_frame
      (commitLoop env (env.rangeUpdated s.updatedFilters) (s.emit [(askConfirm env s).2]))
      .done with h1 | h1
    · obtain ⟨g1, g2, g3, g4, _, g6⟩ := h1
      obtain ⟨f1, f2, f3, f4⟩ := commitLoop_frame env
        (env.rangeUpdated s.updatedFilters) (s.emit [(askConfirm env s).2])
      exact ⟨g1.trans f1, g2.trans f2, g3.trans f3, g4.trans f4, g6⟩
    · cases h1

/-- The maps and the heap at the end of the run are those at the end of the
second loop. -/
theorem run_frame (env : Env T R α κ) :
    (runUpdateFilterCmd env).heap = (diffPhase env).heap ∧
    (runUpdateFilterCmd env).oldFiltersById = (diffPhase env).oldFiltersById ∧
    (runUpdateFilterCmd env).filterQueryElems = (diffPhase env).filterQueryElems ∧
    (runUpdateFilterCmd env).updatedFilters = (diffPhase env).updatedFilters := by
  unfold runUpdateFilterCmd
  by_cases hr : (diffPhase env).status = .running
  · rw [State.andThen_running _ hr]
    obtain ⟨h1, h2, h3, h4, _⟩ := commitStep_frame env (diffPhase env)
    exact ⟨h1, h2, h3, h4⟩
  · rw [State.andThen_stopped _ hr]
    exact ⟨rfl, rfl, rfl, rfl⟩

omit [Inhabited α] [Inhabited κ] in
theorem commitBody_not_panicked (env : Env T R α κ) (s : State T α κ) (e : String × Ptr)
    (hs : s.status ≠ .panicked) : (commitBody env s e).status ≠ .panicked := by
  obtain ⟨id, fltr⟩ := e
  cases hc : env.CreateFilter s.heap fltr with
  | error err =>
    rw [commitBody_createFails env s id fltr err hc]
    simp [State.halt]
  | ok cid =>
    cases hd : env.DeleteFilter id with
    | none =>
      rw [commitBody_ok env s id fltr cid hc hd]
      exact hs
    | some err =>
      rw [commitBody_deleteFails env s id fltr cid err hc hd]
      simp [State.halt]

omit [Inhabited α] [Inhabited κ] in
/-- The last part of the command dereferences no pointer: it cannot panic. -/
theorem commitStep_not_panicked (env : Env T R α κ) (s : State T α κ)
    (hs : s.status = .running) : (commitStep env s).status ≠ .panicked := by
  rcases commitStep_cases env s with ⟨_, h⟩ | ⟨_, _, h⟩ | ⟨_, _, _, h⟩ | ⟨_, _, _, h⟩
  · rw [h]; simp [State.halt]
  · rw [h]; simp [State.halt]
  · rw [h]; simp [State.halt]
  · rw [h]
    have h1 : (commitLoop env (env.rangeUpdated s.updatedFilters)
        (s.emit [(askConfirm env s).2])).status ≠ .panicked :=
      State.forEach_inv (commitBody env) (fun s1 => s1.status ≠ .panicked) _
        (fun s1 x _ _ h1 => commitBody_not_panicked env s1 x h1) _ hs
        (by simp [State.emit, hs])
    by_cases hr : (commitLoop env (env.rangeUpdated s.updatedFilters)
        (s.emit [(askConfirm env s).2])).status = .running
    · rw [State.andThen_running _ hr]; simp [State.halt]
    · rw [State.andThen_stopped _ hr]; exact h1

omit [Inhabited α] [Inhabited κ] in
/-- The state in which the second loop starts, when the first loop ran through
and the template engine returned the map `m`. -/
theorem metaGroupsPhase_ok (env : Env T R α κ) (m : GoMap T)
    (hparsed : (parsePhase env).status = .running)
    (hupd : env.UpdateMetaGroups (parsePhase env).filterQueryElems = .ok m) :
    metaGroupsPhase env =
      { (parsePhase env).emit [.updateMetaGroups true] with filterQueryElems := m } := by
  unfold metaGroupsPhase
  rw [State.andThen_running _ hparsed, metaGroupsStep_ok env _ m hupd]

/-- When the template engine returns a map with no new key, the second loop
runs through and enters exactly the ids whose tree serialises to another string
than the query recorded for the id. -/
theorem diffPhase_emitted (env : Env T R α κ) (m : GoMap T)
    (hparsed : (parsePhase env).status = .running)
    (hupd : env.UpdateMetaGroups (parsePhase env).filterQueryElems = .ok m)
    (hmap : m.keys.Nodup)
    (hkeys : ∀ k ∈ m.keys, k ∈ (parsePhase env).filterQueryElems.keys)
    (hrange : (env.rangeElems m).Perm m) :
    (diffPhase env).status = .running ∧
    (diffPhase env).filterQueryElems = m ∧
    (diffPhase env).oldFiltersById = (parsePhase env).oldFiltersById ∧
    ∀ id, ((diffPhase env).updatedFilters.lookup id).isSome ↔
      ∃ t q, m.lookup id = some t ∧
        originalQuery env.heap0 (parsePhase env).oldFiltersById id = some q ∧
        env.FullFilterStr t ≠ q := by
  have hmg := metaGroupsPhase_ok env m hparsed hupd
  have hrun : (metaGroupsPhase env).status = .running := by rw [hmg]; exact hparsed
  have hel : (metaGroupsPhase env).filterQueryElems = m := by rw [hmg]
  have hold : (metaGroupsPhase env).oldFiltersById = (parsePhase env).oldFiltersById := by
    rw [hmg]; rfl
  have hupd0 : (metaGroupsPhase env).updatedFilters = [] := (metaGroupsPhase_frame env).2.2.1
  have hrec := metaGroupsPhase_recorded env hrun
  have hin : ∀ e ∈ env.rangeElems m, e.1 ∈ (metaGroupsPhase env).oldFiltersById.keys := by
    intro e he
    rw [hold]
    apply (parsePhase_inv env).keys_sub
    apply hkeys
    exact List.mem_map.mpr ⟨e, (hrange.mem_iff).mp he, rfl⟩
  have hd := diffLoop_emitted env (env.rangeElems m) (metaGroupsPhase env) hrec
    (env.rangeElems m) (metaGroupsPhase env) hrun (diffInv_start env _) hin (fun _ h => h)
  have hdp : diffPhase env = diffLoop env (env.rangeElems m) (metaGroupsPhase env) := by
    unfold diffPhase
    rw [State.andThen_running _ hrun, diffStep, hel]
  have hinv := diffPhase_inv env
  refine ⟨hdp ▸ hd.1, hinv.elems_eq.trans hel, hinv.old_eq.trans hold, fun id => ?_⟩
  rw [hdp, hd.2 id, hupd0, hold]
  simp only [GoMap.lookup, Option.isSome_none, Bool.false_eq_true, false_or]
  constructor
  · rintro ⟨t, q, hm, h⟩
    exact ⟨t, q, GoMap.lookup_of_mem hmap ((hrange.mem_iff).mp hm), h⟩
  · rintro ⟨t, q, hm, h⟩
    exact ⟨t, q, (hrange.mem_iff).mpr (GoMap.mem_of_lookup hm), h⟩

end Phases

end GmailTools

namespace GmailTools

/-! ## The claims about the update candidates -/

section Candidates

variable {T R α κ : Type} [Inhabited α] [Inhabited κ]

/-- Claim C1. Once the first loop has run through and `UpdateMetaGroups` has
returned without error a map `m` (a map, with no id that was not parsed), the
run does not panic, and an id is an entry of `updatedFilters` if and only if it
has a tree in `m` whose `FullFilterStr()` differs from the `Criteria.Query` of
the filter recorded for the id in `oldFiltersById`; and the `Criteria.Query` of
every candidate entered is that serialised string. -/
theorem updatedFilters_iff_query_differs (env : Env T R α κ) (m : GoMap T)
    (hparsed : (parsePhase env).status = .running)
    (hupd : env.UpdateMetaGroups (parsePhase env).filterQueryElems = .ok m)
    (hmap : m.keys.Nodup)
    (hkeys : ∀ k ∈ m.keys, k ∈ (parsePhase env).filterQueryElems.keys)
    (hrange : (env.rangeElems m).Perm m) :
    (runUpdateFilterCmd env).status ≠ .panicked ∧
    (runUpdateFilterCmd env).filterQueryElems = m ∧
    (∀ id, ((runUpdateFilterCmd env).updatedFilters.lookup id).isSome ↔
      ∃ t q, m.lookup id = some t ∧
        originalQuery env.heap0 (runUpdateFilterCmd env).oldFiltersById id = some q ∧
        env.FullFilterStr t ≠ q) ∧
    (∀ id p, (runUpdateFilterCmd env).updatedFilters.lookup id = some p →
      ∃ t f c, m.lookup id = some t ∧
        (runUpdateFilterCmd env).heap.filterOf p = some (f, c) ∧
        c.Query = env.FullFilterStr t) := by
  obtain ⟨hrun, hel, hold, hiff⟩ := diffPhase_emitted env m hparsed hupd hmap hkeys hrange
  obtain ⟨fheap, fold, felems, fupd⟩ := run_frame env
  have hinv := diffPhase_inv env
  refine ⟨?_, felems.trans hel, ?_, ?_⟩
  · unfold runUpdateFilterCmd
    rw [State.andThen_running _ hrun]
    exact commitStep_not_panicked env _ hrun
  · intro id
    rw [fupd, fold, hold]
    exact hiff id
  · intro id p hp
    rw [fupd] at hp
    obtain ⟨t, ht, a, ca, po, fo, co, rfl, _, _, _, _, hfa, hca⟩ := hinv.cands id p hp
    have hmg := metaGroupsPhase_ok env m hparsed hupd
    have hel2 : (metaGroupsPhase env).filterQueryElems = m := by rw [hmg]
    rw [hel2] at ht
    refine ⟨t, { fo with Criteria := some ca }, { co with Query := env.FullFilterStr t },
      GoMap.lookup_of_mem hmap ((hrange.mem_iff).mp ht), ?_, rfl⟩
    rw [fheap]
    simp [Heap.filterOf, Heap.filterAt, Heap.criteriaAt, hfa, hca]

/-- Claim C8. Every update candidate is a copy of the filter recorded for its
id and of the criteria of that filter: a filter object of its own with the same
`Id` and the same other fields, whose `Criteria` is an object of its own with
the same fields but for `Query`; and at the end of the run every object of the
provider is what it was, the recorded filter and its criteria (its original
`Query` included) among them. -/
theorem updatedFilter_is_copy (env : Env T R α κ) (id : String) (p : Ptr)
    (hp : (runUpdateFilterCmd env).updatedFilters.lookup id = some p) :
    ∃ po fo co f c,
      (runUpdateFilterCmd env).oldFiltersById.lookup id = some po ∧
      env.heap0.filterOf po = some (fo, co) ∧
      (runUpdateFilterCmd env).heap.filterOf po = some (fo, co) ∧
      (runUpdateFilterCmd env).heap.filterOf p = some (f, c) ∧
      f.Id = fo.Id ∧ f.others = fo.others ∧ c.others = co.others ∧
      p ≠ po ∧ f.Criteria ≠ fo.Criteria ∧
      env.heap0.filterAt p = none ∧ env.heap0.criteriaAt f.Criteria = none ∧
      Heap.Extends env.heap0 (runUpdateFilterCmd env).heap := by
  obtain ⟨fheap, fold, felems, fupd⟩ := run_frame env
  have hinv := diffPhase_inv env
  rw [fupd] at hp
  obtain ⟨t, _, a, ca, po, fo, co, rfl, ha, hca, hl, hf0, hfa, hcc⟩ := hinv.cands id _ hp
  have hold : (metaGroupsPhase env).oldFiltersById = (diffPhase env).oldFiltersById :=
    hinv.old_eq.symm
  have hfa0 : env.heap0.filterAt (some a) = none := by
    simp only [Heap.filterAt]
    exact List.getElem?_eq_none ha
  have hca0 : env.heap0.criteriaAt (some ca) = none := by
    simp only [Heap.criteriaAt]
    exact List.getElem?_eq_none hca
  refine ⟨po, fo, co, { fo with Criteria := some ca },
    { co with Query := env.FullFilterStr t }, ?_, hf0, ?_, ?_, rfl, rfl, rfl, ?_, ?_,
    hfa0, hca0, ?_⟩
  · rw [fold, ← hold]; exact hl
  · rw [fheap]; exact Heap.filterOf_extends hinv.ext hf0
  · rw [fheap]
    simp [Heap.filterOf, Heap.filterAt, Heap.criteriaAt, hfa, hcc]
  · intro h
    rw [← h] at hf0
    simp [Heap.filterOf, hfa0] at hf0
  · intro h
    simp only at h
    unfold Heap.filterOf at hf0
    cases hf : env.heap0.filterAt po with
    | none => simp [hf] at hf0
    | some f1 =>
      simp only [hf] at hf0
      cases hc : env.heap0.criteriaAt f1.Criteria with
      | none => simp [hc] at hf0
      | some c1 =>
        simp only [hc, Option.some.injEq, Prod.mk.injEq] at hf0
        obtain ⟨rfl, rfl⟩ := hf0
        rw [← h, hca0] at hc
        cases hc
  · rw [fheap]; exact hinv.ext

/-- Claim C9, the counterexample. The template engine changes no tree, the tree
parsed for `f1` serialises to `from:a from:b`, which is the serialised form of
its freshly parsed tree, and `f1` is entered as an update candidate all the
same: its recorded query is `from:a  from:b`, with two blanks. -/
theorem unchanged_tree_emitted :
    (parsePhase Sample.envIdle).status = .running ∧
    Sample.envIdle.ParseElement "from:a  from:b" = .ok ["from:a", "from:b"] ∧
    (parsePhase Sample.envIdle).filterQueryElems.lookup "f1" = some ["from:a", "from:b"] ∧
    Sample.envIdle.UpdateMetaGroups (parsePhase Sample.envIdle).filterQueryElems
      = .ok (parsePhase Sample.envIdle).filterQueryElems ∧
    (runUpdateFilterCmd Sample.envIdle).filterQueryElems.lookup "f1"
      = some ["from:a", "from:b"] ∧
    Sample.envIdle.FullFilterStr ["from:a", "from:b"] = "from:a from:b" ∧
    originalQuery Sample.envIdle.heap0 (runUpdateFilterCmd Sample.envIdle).oldFiltersById "f1"
      = some "from:a  from:b" ∧
    (runUpdateFilterCmd Sample.envIdle).updatedFilters.lookup "f1" = some (some 3) :=
  ⟨by decide, rfl, by decide, rfl, by decide, by decide, by decide, by decide⟩

/-- Claim C9, amended. The string the serialised tree is compared with is the
`Criteria.Query` of the filter recorded for the id, as the provider returned it;
no serialised form of the parsed tree is kept. So a filter whose tree
`UpdateMetaGroups` leaves unchanged is entered as an update candidate exactly
when that tree serialises to another string than the recorded query, and is not
entered when it serialises to the recorded query. -/
theorem unchanged_tree_emitted_iff (env : Env T R α κ) (m : GoMap T)
    (hparsed : (parsePhase env).status = .running)
    (hupd : env.UpdateMetaGroups (parsePhase env).filterQueryElems = .ok m)
    (hmap : m.keys.Nodup)
    (hkeys : ∀ k ∈ m.keys, k ∈ (parsePhase env).filterQueryElems.keys)
    (hrange : (env.rangeElems m).Perm m)
    (id : String) (t0 : T)
    (htree : (parsePhase env).filterQueryElems.lookup id = some t0)
    (hsame : m.lookup id = some t0) :
    ∃ q, originalQuery env.heap0 (parsePhase env).oldFiltersById id = some q ∧
      (((runUpdateFilterCmd env).updatedFilters.lookup id).isSome ↔ env.FullFilterStr t0 ≠ q) := by
  obtain ⟨hrun, hel, hold, hiff⟩ := diffPhase_emitted env m hparsed hupd hmap hkeys hrange
  obtain ⟨fheap, fold, felems, fupd⟩ := run_frame env
  have hp := parsePhase_inv env
  have hk : id ∈ (parsePhase env).oldFiltersById.keys := by
    apply hp.keys_sub
    apply (GoMap.lookup_isSome_iff _ _).mp
    rw [htree]; rfl
  obtain ⟨po, hpo⟩ := Option.isSome_iff_exists.mp ((GoMap.lookup_isSome_iff _ _).mpr hk)
  obtain ⟨fo, co, hf0, _⟩ := hp.recorded hparsed id po hpo
  have horig : originalQuery env.heap0 (parsePhase env).oldFiltersById id = some co.Query := by
    simp [originalQuery, hpo, hf0]
  refine ⟨co.Query, horig, ?_⟩
  rw [fupd, hiff id]
  constructor
  · rintro ⟨t, q, ht, hq, hne⟩
    rw [hsame] at ht
    rw [horig] at hq
    cases ht
    cases hq
    exact hne
  · intro hne
    exact ⟨t0, co.Query, hsame, horig, hne⟩

end Candidates

/-! ### The three theorems above, on the small instance -/

theorem updatedFilters_iff_query_differs_witness :
    (parsePhase (Sample.env false true)).status = .running ∧
    (runUpdateFilterCmd (Sample.env false true)).status ≠ .panicked ∧
    (∀ id, ((runUpdateFilterCmd (Sample.env false true)).updatedFilters.lookup id).isSome ↔
      ∃ t q, GoMap.lookup [("f1", ["from:a", "from:b"]), ("f3", ["label:z", "list:y"])] id
          = some t ∧
        originalQuery Sample.heap
          (runUpdateFilterCmd (Sample.env false true)).oldFiltersById id = some q ∧
        Sample.FullFilterStr t ≠ q) :=
  have h := updatedFilters_iff_query_differs (Sample.env false true)
    [("f1", ["from:a", "from:b"]), ("f3", ["label:z", "list:y"])]
    (by decide) rfl (by decide) (by decide) (List.Perm.refl _)
  ⟨by decide, h.1, h.2.2.1⟩

theorem updatedFilter_is_copy_witness :
    (runUpdateFilterCmd (Sample.env false true)).updatedFilters.lookup "f3" = some (some 4) ∧
    ∃ po fo co f c,
      (runUpdateFilterCmd (Sample.env false true)).oldFiltersById.lookup "f3" = some po ∧
      Sample.heap.filterOf po = some (fo, co) ∧
      (runUpdateFilterCmd (Sample.env false true)).heap.filterOf po = some (fo, co) ∧
      (runUpdateFilterCmd (Sample.env false true)).heap.filterOf (some 4) = some (f, c) ∧
      f.Id = fo.Id ∧ f.others = fo.others ∧ c.others = co.others ∧
      some 4 ≠ po ∧ f.Criteria ≠ fo.Criteria ∧
      Sample.heap.filterAt (some 4) = none ∧ Sample.heap.criteriaAt f.Criteria = none ∧
      Heap.Extends Sample.heap (runUpdateFilterCmd (Sample.env false true)).heap :=
  ⟨by decide, updatedFilter_is_copy (Sample.env false true) "f3" (some 4) (by decide)⟩

theorem unchanged_tree_emitted_iff_witness :
    (parsePhase Sample.envIdle).filterQueryElems.lookup "f3" = some ["label:x", "list:y"] ∧
    ∃ q, originalQuery Sample.heap (parsePhase Sample.envIdle).oldFiltersById "f3" = some q ∧
      (((runUpdateFilterCmd Sample.envIdle).updatedFilters.lookup "f3").isSome ↔
        Sample.FullFilterStr ["label:x", "list:y"] ≠ q) :=
  ⟨by decide, unchanged_tree_emitted_iff Sample.envIdle
    [("f1", ["from:a", "from:b"]), ("f3", ["label:x", "list:y"])]
    (by decide) rfl (by decide) (by decide) (List.Perm.refl _)
    "f3" ["label:x", "list:y"] (by decide) (by decide)⟩

end GmailTools

namespace GmailTools

/-! ## The claims about the calls made at the provider -/

section Commit

variable {T R α κ : Type} [Inhabited α] [Inhabited κ]

omit [Inhabited α] [Inhabited κ] in
theorem apiCalls_append (a b : List Event) : apiCalls (a ++ b) = apiCalls a ++ apiCalls b := by
  simp [apiCalls]

omit [Inhabited α] [Inhabited κ] in
theorem apiCalls_eq_nil {tr : List Event} (h : ∀ ev ∈ tr, ev.isApi = false ∧ ev.isConfirm = false) :
    apiCalls tr = [] := by
  simp only [apiCalls, List.filter_eq_nil_iff]
  intro ev hev
  simp [(h ev hev).1]

omit [Inhabited α] [Inhabited κ] in
/-- The third loop: the calls it makes at the provider are, for
the candidates of an initial part `done` of the list, `CreateFilter` then
`DeleteFilter`, both successful; then either the list is over, or the
`CreateFilter` of the next candidate fails and nothing more is called, or its
`CreateFilter` succeeds, its `DeleteFilter` fails and nothing more is called. -/
theorem commitLoop_calls (env : Env T R α κ) (ks : List (String × Ptr)) :
    ∀ s : State T α κ, s.status = .running → ∃ done rest tail evs,
      ks = done ++ rest ∧
      (commitLoop env ks s).trace = s.trace ++ evs ∧
      apiCalls evs = done.flatMap replaceCalls ++ tail ∧
      (∀ c ∈ done, (∃ cid, env.CreateFilter s.heap c.2 = .ok cid) ∧ env.DeleteFilter c.1 = none) ∧
      ((tail = [] ∧ rest = [] ∧ (commitLoop env ks s).status = .running) ∨
       (∃ id f rest1 err, rest = (id, f) :: rest1 ∧ tail = [.createFilter f false] ∧
          env.CreateFilter s.heap f = .error err ∧
          (commitLoop env ks s).status = .fatal ("Failed to create filter: " ++ err)) ∨
       (∃ id f rest1 cid err, rest = (id, f) :: rest1 ∧
          tail = [.createFilter f true, .deleteFilter id false] ∧
          env.CreateFilter s.heap f = .ok cid ∧ env.DeleteFilter id = some err ∧
          (commitLoop env ks s).status =
            .fatal ("Failed to delete filter " ++ id ++ ": " ++ err ++ "\n"))) := by
  induction ks with
  | nil =>
    intro s hrun
    exact ⟨[], [], [], [], rfl, by simp [commitLoop, State.forEach], rfl, by simp,
      Or.inl ⟨rfl, rfl, hrun⟩⟩
  | cons e ks ih =>
    intro s hrun
    obtain ⟨id, fltr⟩ := e
    cases hc : env.CreateFilter s.heap fltr with
    | error err =>
      have hb := commitBody_createFails env s id fltr err hc
      have hst : (commitBody env s (id, fltr)).status ≠ .running := by rw [hb]; simp [State.halt]
      refine ⟨[], (id, fltr) :: ks, [.createFilter fltr false], [.createFilter fltr false],
        rfl, ?_, rfl, by simp, Or.inr (Or.inl ⟨id, fltr, ks, err, rfl, rfl, hc, ?_⟩)⟩
      · simp only [commitLoop, State.forEach, State.andThen_stopped _ hst]
        rw [hb]; rfl
      · simp only [commitLoop, State.forEach, State.andThen_stopped _ hst]
        rw [hb]; rfl
    | ok cid =>
      cases hd : env.DeleteFilter id with
      | some err =>
        have hb := commitBody_deleteFails env s id fltr cid err hc hd
        have hst : (commitBody env s (id, fltr)).status ≠ .running := by
          rw [hb]; simp [State.halt]
        refine ⟨[], (id, fltr) :: ks, [.createFilter fltr true, .deleteFilter id false],
          [.createFilter fltr true, .createdMsg cid, .deleteFilter id false],
          rfl, ?_, rfl, by simp,
          Or.inr (Or.inr ⟨id, fltr, ks, cid, err, rfl, rfl, hc, hd, ?_⟩)⟩
        · simp only [commitLoop, State.forEach, State.andThen_stopped _ hst]
          rw [hb]; simp [State.halt, State.emit]
        · simp only [commitLoop, State.forEach, State.andThen_stopped _ hst]
          rw [hb]; rfl
      | none =>
        have hb := commitBody_ok env s id fltr cid hc hd
        have hr1 : (commitBody env s (id, fltr)).status = .running := by rw [hb]; exact hrun
        obtain ⟨done, rest, tail, evs, hks, htr, hapi, hdone, hend⟩ :=
          ih (commitBody env s (id, fltr)) hr1
        have hheap : (commitBody env s (id, fltr)).heap = s.heap := (commitBody_frame env s _).1
        rw [hheap] at hdone hend
        have hloop : commitLoop env ((id, fltr) :: ks) s
            = commitLoop env ks (commitBody env s (id, fltr)) := by
          simp only [commitLoop, State.forEach, State.andThen_running _ hr1]
        rw [hloop]
        refine ⟨(id, fltr) :: done, rest, tail,
          [.createFilter fltr true, .createdMsg cid, .deleteFilter id true, .deletedMsg id]
            ++ evs, by rw [hks]; rfl, ?_, ?_, ?_, hend⟩
        · rw [htr, hb]; simp [State.emit]
        · rw [apiCalls_append, hapi]; rfl
        · intro c hcm
          rcases List.mem_cons.mp hcm with h | h
          · subst h; exact ⟨⟨cid, hc⟩, hd⟩
          · exact hdone c h

omit [Inhabited α] [Inhabited κ] in
theorem askConfirm_congr (env : Env T R α κ) {s1 s2 : State T α κ}
    (h : s1.updatedFilters = s2.updatedFilters) : askConfirm env s1 = askConfirm env s2 := by
  simp [askConfirm, h]

omit [Inhabited α] [Inhabited κ] in
theorem askConfirm_isConfirm (env : Env T R α κ) (s : State T α κ) :
    (askConfirm env s).2.isApi = false ∧ (askConfirm env s).2.isConfirm = true := by
  unfold askConfirm
  split <;> exact ⟨rfl, rfl⟩

omit [Inhabited α] [Inhabited κ] in
theorem andThen_done (s : State T α κ) :
    (s.andThen (fun s2 => s2.halt .done)).trace = s.trace ∧
    (s.status = .running → (s.andThen (fun s2 => s2.halt .done)).status = .done) ∧
    (s.status ≠ .running → (s.andThen (fun s2 => s2.halt .done)).status = s.status) := by
  by_cases hr : s.status = .running
  · rw [State.andThen_running _ hr]
    exact ⟨rfl, fun _ => rfl, fun h => absurd hr h⟩
  · rw [State.andThen_stopped _ hr]
    exact ⟨rfl, fun h => absurd h hr, fun _ => rfl⟩

/-- A run that enters the third loop: its trace is that of the first two loops,
the confirmation, and the calls described by `commitLoop_calls`. -/
theorem run_commit (env : Env T R α κ)
    (hrun : (diffPhase env).status = .running) (hdry : env.DryRun = false)
    (hne : (diffPhase env).updatedFilters.length ≠ 0)
    (hans : (askConfirm env (diffPhase env)).1 = true) :
    ∃ done rest tail evs,
      env.rangeUpdated (diffPhase env).updatedFilters = done ++ rest ∧
      (runUpdateFilterCmd env).trace
        = (diffPhase env).trace ++ (askConfirm env (diffPhase env)).2 :: evs ∧
      apiCalls evs = done.flatMap replaceCalls ++ tail ∧
      (∀ c ∈ done, (∃ cid, env.CreateFilter (diffPhase env).heap c.2 = .ok cid) ∧
        env.DeleteFilter c.1 = none) ∧
      ((tail = [] ∧ rest = [] ∧ (runUpdateFilterCmd env).status = .done) ∨
       (∃ id f rest1 err, rest = (id, f) :: rest1 ∧ tail = [.createFilter f false] ∧
          env.CreateFilter (diffPhase env).heap f = .error err ∧
          (runUpdateFilterCmd env).status = .fatal ("Failed to create filter: " ++ err)) ∨
       (∃ id f rest1 cid err, rest = (id, f) :: rest1 ∧
          tail = [.createFilter f true, .deleteFilter id false] ∧
          env.CreateFilter (diffPhase env).heap f = .ok cid ∧ env.DeleteFilter id = some err ∧
          (runUpdateFilterCmd env).status =
            .fatal ("Failed to delete filter " ++ id ++ ": " ++ err ++ "\n"))) := by
  have hr : runUpdateFilterCmd env =
      (commitLoop env (env.rangeUpdated (diffPhase env).updatedFilters)
        ((diffPhase env).emit [(askConfirm env (diffPhase env)).2])).andThen
          (fun s2 => s2.halt .done) := by
    unfold runUpdateFilterCmd
    rw [State.andThen_running _ hrun, commitStep_confirmed env _ hdry hne hans]
  obtain ⟨done, rest, tail, evs, hks, htr, hapi, hdone, hend⟩ :=
    commitLoop_calls env (env.rangeUpdated (diffPhase env).updatedFilters)
      ((diffPhase env).emit [(askConfirm env (diffPhase env)).2]) hrun
  obtain ⟨btr, brun, bstop⟩ := andThen_done
    (commitLoop env (env.rangeUpdated (diffPhase env).updatedFilters)
      ((diffPhase env).emit [(askConfirm env (diffPhase env)).2]))
  refine ⟨done, rest, tail, evs, hks, ?_, hapi, hdone, ?_⟩
  · rw [hr, btr, htr]; simp [State.emit]
  · rcases hend with ⟨h1, h2, h3⟩ | ⟨id, f, rest1, err, h1, h2, h3, h4⟩ |
      ⟨id, f, rest1, cid, err, h1, h2, h3, h4, h5⟩
    · exact Or.inl ⟨h1, h2, by rw [hr]; exact brun h3⟩
    · refine Or.inr (Or.inl ⟨id, f, rest1, err, h1, h2, h3, ?_⟩)
      rw [hr, bstop (by rw [h4]; simp), h4]
    · refine Or.inr (Or.inr ⟨id, f, rest1, cid, err, h1, h2, h3, h4, ?_⟩)
      rw [hr, bstop (by rw [h5]; simp), h5]

/-- A run that does not enter the third loop calls neither `CreateFilter` nor
`DeleteFilter`; and unless it has candidates, is not a dry run and got to the
end of the second loop, it asks for no confirmation. -/
theorem run_no_commit (env : Env T R α κ)
    (h : ¬ ((diffPhase env).status = .running ∧ env.DryRun = false ∧
      (diffPhase env).updatedFilters.length ≠ 0 ∧ (askConfirm env (diffPhase env)).1 = true)) :
    (∀ ev ∈ (runUpdateFilterCmd env).trace, ev.isApi = false) ∧
    (¬ ((diffPhase env).status = .running ∧ env.DryRun = false ∧
        (diffPhase env).updatedFilters.length ≠ 0) →
      ∀ ev ∈ (runUpdateFilterCmd env).trace, ev.isConfirm = false) := by
  have hq := (diffPhase_inv env).quiet
  by_cases hrun : (diffPhase env).status = .running
  · have hr : runUpdateFilterCmd env = commitStep env (diffPhase env) := by
      unfold runUpdateFilterCmd
      rw [State.andThen_running _ hrun]
    rw [hr]
    rcases commitStep_cases env (diffPhase env) with ⟨hd, hc⟩ | ⟨hd, h0, hc⟩ |
      ⟨hd, h0, ha, hc⟩ | ⟨hd, h0, ha, hc⟩
    · rw [hc]
      constructor
      · intro ev hev
        simp only [State.halt, State.emit, List.mem_append, List.mem_singleton] at hev
        rcases hev with h1 | h1
        · exact (hq ev h1).1
        · subst h1; rfl
      · intro _ ev hev
        simp only [State.halt, State.emit, List.mem_append, List.mem_singleton] at hev
        rcases hev with h1 | h1
        · exact (hq ev h1).2
        · subst h1; rfl
    · rw [hc]
      constructor
      · intro ev hev
        simp only [State.halt, State.emit, List.mem_append, List.mem_singleton] at hev
        rcases hev with h1 | h1
        · exact (hq ev h1).1
        · subst h1; rfl
      · intro _ ev hev
        simp only [State.halt, State.emit, List.mem_append, List.mem_singleton] at hev
        rcases hev with h1 | h1
        · exact (hq ev h1).2
        · subst h1; rfl
    · rw [hc]
      constructor
      · intro ev hev
        simp only [State.halt, State.emit, List.mem_append, List.mem_singleton] at hev
        rcases hev with h1 | h1
        · exact (hq ev h1).1
        · subst h1; exact (askConfirm_isConfirm env _).1
      · intro hn
        exact absurd ⟨hrun, hd, h0⟩ hn
    · exact absurd ⟨hrun, hd, h0, ha⟩ h
  · have hr : runUpdateFilterCmd env = diffPhase env := by
      unfold runUpdateFilterCmd
      rw [State.andThen_stopped _ hrun]
    rw [hr]
    exact ⟨fun ev hev => (hq ev hev).1, fun _ ev hev => (hq ev hev).2⟩

/-- Claim C3. When the first loop has run through and `UpdateMetaGroups` returns
an error, the run ends there with the fatal error `Template error: ...`: the
trace is that of the first loop and the failed call, there is no update
candidate, no object was created, and neither a confirmation nor `CreateFilter`
nor `DeleteFilter` was called, for any filter. -/
theorem templateError_is_global (env : Env T R α κ) (err : String)
    (hparsed : (parsePhase env).status = .running)
    (hupd : env.UpdateMetaGroups (parsePhase env).filterQueryElems = .error err) :
    (runUpdateFilterCmd env).status = .fatal ("Template error: " ++ err) ∧
    (runUpdateFilterCmd env).trace = (parsePhase env).trace ++ [.updateMetaGroups false] ∧
    (runUpdateFilterCmd env).updatedFilters = [] ∧
    (runUpdateFilterCmd env).heap = env.heap0 ∧
    (∀ ev ∈ (runUpdateFilterCmd env).trace, ev.isApi = false ∧ ev.isConfirm = false) := by
  have hmg : metaGroupsPhase env =
      ((parsePhase env).emit [.updateMetaGroups false]).halt
        (.fatal ("Template error: " ++ err)) := by
    unfold metaGroupsPhase
    rw [State.andThen_running _ hparsed, metaGroupsStep_error env _ err hupd]
  have hst : (metaGroupsPhase env).status ≠ .running := by rw [hmg]; simp [State.halt]
  have hd : diffPhase env = metaGroupsPhase env := by
    unfold diffPhase
    rw [State.andThen_stopped _ hst]
  have hr : runUpdateFilterCmd env = metaGroupsPhase env := by
    unfold runUpdateFilterCmd
    rw [hd, State.andThen_stopped _ hst]
  obtain ⟨hheap, _, hupd0, hq, _⟩ := metaGroupsPhase_frame env
  rw [hr]
  refine ⟨by rw [hmg]; rfl, by rw [hmg]; rfl, hupd0, hheap, hq⟩

/-- Claim C5. A call of `CreateFilter` or `DeleteFilter` is in the trace only
if `DryRun` is false, there is at least one update candidate, and the
confirmation asked for (the long one for several candidates, the short one for
a single candidate) answered true; the call then comes after that
confirmation, before which nothing was called at the provider. With `DryRun`
set nothing is created or deleted, and with no candidate no confirmation is
asked and nothing is created or deleted. -/
theorem provider_changed_only_when_allowed (env : Env T R α κ) :
    (∀ ev ∈ (runUpdateFilterCmd env).trace, ev.isApi = true →
      env.DryRun = false ∧ (runUpdateFilterCmd env).updatedFilters ≠ [] ∧
      ((1 < (runUpdateFilterCmd env).updatedFilters.length ∧
          env.MaybeConfirmFromInputLong "Make these changes?" = true) ∨
       ((runUpdateFilterCmd env).updatedFilters.length = 1 ∧
          env.MaybeConfirmFromInput "Make these changes?" false = true)) ∧
      ∃ pre post confirmation,
        (runUpdateFilterCmd env).trace = pre ++ confirmation :: post ∧
        (confirmation = .confirmLong "Make these changes?" true ∨
          confirmation = .confirm "Make these changes?" false true) ∧
        (∀ e ∈ pre, e.isApi = false) ∧ ev ∈ post) ∧
    (env.DryRun = true → ∀ ev ∈ (runUpdateFilterCmd env).trace, ev.isApi = false) ∧
    ((runUpdateFilterCmd env).updatedFilters = [] →
      ∀ ev ∈ (runUpdateFilterCmd env).trace, ev.isApi = false ∧ ev.isConfirm = false) := by
  obtain ⟨_, _, _, fupd⟩ := run_frame env
  by_cases hc : (diffPhase env).status = .running ∧ env.DryRun = false ∧
      (diffPhase env).updatedFilters.length ≠ 0 ∧ (askConfirm env (diffPhase env)).1 = true
  · obtain ⟨hrun, hdry, hne, hans⟩ := hc
    obtain ⟨done, rest, tail, evs, _, htr, _, _, _⟩ := run_commit env hrun hdry hne hans
    have hq := (diffPhase_inv env).quiet
    refine ⟨?_, ?_, ?_⟩
    · intro ev hev hapi
      refine ⟨hdry, ?_, ?_, (diffPhase env).trace, evs, (askConfirm env (diffPhase env)).2,
        htr, ?_, fun e he => (hq e he).1, ?_⟩
      · rw [fupd]
        intro h0
        exact hne (by rw [h0]; rfl)
      · rw [fupd]
        by_cases h1 : 1 < (diffPhase env).updatedFilters.length
        · left
          refine ⟨h1, ?_⟩
          simpa [askConfirm, h1] using hans
        · right
          refine ⟨by omega, ?_⟩
          simpa [askConfirm, h1] using hans
      · by_cases h1 : 1 < (diffPhase env).updatedFilters.length
        · left
          have h2 : env.MaybeConfirmFromInputLong "Make these changes?" = true := by
            simpa [askConfirm, h1] using hans
          simp [askConfirm, h1, h2]
        · right
          have h2 : env.MaybeConfirmFromInput "Make these changes?" false = true := by
            simpa [askConfirm, h1] using hans
          simp [askConfirm, h1, h2]
      · rw [htr] at hev
        rcases List.mem_append.mp hev with h | h
        · rw [(hq ev h).1] at hapi; cases hapi
        · rcases List.mem_cons.mp h with h | h
          · rw [h, (askConfirm_isConfirm env _).1] at hapi; cases hapi
          · exact h
    · intro hd
      rw [hd] at hdry; cases hdry
    · intro h0
      rw [fupd] at h0
      exact absurd (by rw [h0]; rfl) hne
  · obtain ⟨h1, h2⟩ := run_no_commit env hc
    refine ⟨?_, fun _ => h1, ?_⟩
    · intro ev hev hapi
      rw [h1 ev hev] at hapi; cases hapi
    · intro h0 ev hev
      refine ⟨h1 ev hev, h2 ?_ ev hev⟩
      rintro ⟨_, _, hne⟩
      rw [fupd] at h0
      exact hne (by rw [h0]; rfl)

/-- Claim C7. When the third loop is entered, the calls made at the provider
are, in the order in which the candidates are visited: for each candidate of an
initial part `done` of them, one successful `CreateFilter` on the replacement
immediately followed by one successful `DeleteFilter` on the id it replaces;
and then either all candidates are done and the run is over, or `CreateFilter`
fails on the next candidate and the run ends there without any call of
`DeleteFilter` on its id, or `CreateFilter` succeeds on it, `DeleteFilter` on
its id fails and the run ends there. So `DeleteFilter` is never called on an id
before `CreateFilter` has returned without error for its replacement. -/
theorem delete_follows_create (env : Env T R α κ)
    (hrun : (diffPhase env).status = .running) (hdry : env.DryRun = false)
    (hne : (runUpdateFilterCmd env).updatedFilters.length ≠ 0)
    (hans : (askConfirm env (runUpdateFilterCmd env)).1 = true) :
    ∃ done rest tail,
      env.rangeUpdated (runUpdateFilterCmd env).updatedFilters = done ++ rest ∧
      apiCalls (runUpdateFilterCmd env).trace = done.flatMap replaceCalls ++ tail ∧
      (∀ c ∈ done, (∃ cid, env.CreateFilter (runUpdateFilterCmd env).heap c.2 = .ok cid) ∧
        env.DeleteFilter c.1 = none) ∧
      ((tail = [] ∧ rest = [] ∧ (runUpdateFilterCmd env).status = .done) ∨
       (∃ id f rest1 err, rest = (id, f) :: rest1 ∧ tail = [.createFilter f false] ∧
          env.CreateFilter (runUpdateFilterCmd env).heap f = .error err ∧
          (runUpdateFilterCmd env).status = .fatal ("Failed to create filter: " ++ err)) ∨
       (∃ id f rest1 cid err, rest = (id, f) :: rest1 ∧
          tail = [.createFilter f true, .deleteFilter id false] ∧
          env.CreateFilter (runUpdateFilterCmd env).heap f = .ok cid ∧
          env.DeleteFilter id = some err ∧
          (runUpdateFilterCmd env).status =
            .fatal ("Failed to delete filter " ++ id ++ ": " ++ err ++ "\n"))) := by
  obtain ⟨fheap, _, _, fupd⟩ := run_frame env
  rw [fupd] at hne
  rw [askConfirm_congr env fupd] at hans
  obtain ⟨done, rest, tail, evs, hks, htr, hapi, hdone, hend⟩ :=
    run_commit env hrun hdry hne hans
  rw [fupd, fheap]
  refine ⟨done, rest, tail, hks, ?_, hdone, hend⟩
  rw [htr, apiCalls_append, apiCalls_eq_nil (diffPhase_inv env).quiet, ← hapi]
  simp [apiCalls, (askConfirm_isConfirm env (diffPhase env)).1]

end Commit

/-! ### The three theorems above, on the small instance -/

theorem templateError_is_global_witness :
    (parsePhase Sample.envBadTemplate).status = .running ∧
    (runUpdateFilterCmd Sample.envBadTemplate).status = .fatal "Template error: empty group" ∧
    (runUpdateFilterCmd Sample.envBadTemplate).trace =
      (parsePhase Sample.envBadTemplate).trace ++ [.updateMetaGroups false] ∧
    (runUpdateFilterCmd Sample.envBadTemplate).updatedFilters = [] ∧
    (runUpdateFilterCmd Sample.envBadTemplate).heap = Sample.heap ∧
    (∀ ev ∈ (runUpdateFilterCmd Sample.envBadTemplate).trace,
      ev.isApi = false ∧ ev.isConfirm = false) :=
  ⟨by decide, templateError_is_global Sample.envBadTemplate "empty group" (by decide) rfl⟩

theorem provider_changed_only_when_allowed_witness :
    (Sample.env true true).DryRun = true ∧
    (runUpdateFilterCmd (Sample.env true true)).updatedFilters.length = 2 ∧
    ∀ ev ∈ (runUpdateFilterCmd (Sample.env true true)).trace, ev.isApi = false :=
  ⟨rfl, by decide, (provider_changed_only_when_allowed (Sample.env true true)).2.1 rfl⟩

theorem delete_follows_create_witness :
    (diffPhase (Sample.env false true)).status = .running ∧
    ∃ done rest tail,
      [("f3", some 4), ("f1", some 3)] = done ++ rest ∧
      apiCalls (runUpdateFilterCmd (Sample.env false true)).trace
        = done.flatMap replaceCalls ++ tail ∧
      (∀ c ∈ done,
        (∃ cid, (Sample.env false true).CreateFilter
          (runUpdateFilterCmd (Sample.env false true)).heap c.2 = .ok cid) ∧
        (Sample.env false true).DeleteFilter c.1 = none) ∧
      ((tail = [] ∧ rest = [] ∧ (runUpdateFilterCmd (Sample.env false true)).status = .done) ∨
       (∃ id f rest1 err, rest = (id, f) :: rest1 ∧ tail = [.createFilter f false] ∧
          (Sample.env false true).CreateFilter
            (runUpdateFilterCmd (Sample.env false true)).heap f = .error err ∧
          (runUpdateFilterCmd (Sample.env false true)).status
            = .fatal ("Failed to create filter: " ++ err)) ∨
       (∃ id f rest1 cid err, rest = (id, f) :: rest1 ∧
          tail = [.createFilter f true, .deleteFilter id false] ∧
          (Sample.env false true).CreateFilter
            (runUpdateFilterCmd (Sample.env false true)).heap f = .ok cid ∧
          (Sample.env false true).DeleteFilter id = some err ∧
          (runUpdateFilterCmd (Sample.env false true)).status =
            .fatal ("Failed to delete filter " ++ id ++ ": " ++ err ++ "\n"))) :=
  ⟨by decide,
   delete_follows_create (Sample.env false true) (by decide) rfl (by decide) (by decide)⟩

end GmailTools

namespace GmailTools

/-! ## The claim about `filter list` -/

section ListCmd

variable {T R α κ : Type}

theorem listLoop_none (env : Env T R α κ) (filters : List Ptr) :
    (listLoop env none filters).filterMap Event.printedFilter = filters := by
  induction filters with
  | nil => rfl
  | cons p rest ih => simp [listLoop, Event.printedFilter, ih]

theorem listLoop_some (env : Env T R α κ) (re : R) (filters : List Ptr) :
    (listLoop env (some re) filters).filterMap Event.printedFilter
      = filters.filter (env.MatchesFilter re) := by
  induction filters with
  | nil => rfl
  | cons p rest ih =>
    cases h : env.MatchesFilter re p
    · simp [listLoop, h, ih]
    · simp [listLoop, h, Event.printedFilter, ih]

theorem listFilters_printed (env : Env T R α κ) (searchRegexp : Option R) (tr : List Event)
    (filters : List Ptr) (hget : env.GetFilters = .ok filters)
    (htr : tr.filterMap Event.printedFilter = []) :
    (listFilters env searchRegexp tr).status = .done ∧
    (listFilters env searchRegexp tr).trace.filterMap Event.printedFilter
      = (listLoop env searchRegexp filters).filterMap Event.printedFilter := by
  constructor
  · simp [listFilters, hget]
  · by_cases h0 : filters.length = 0
    · simp [listFilters, hget, h0, htr, Event.printedFilter]
    · simp [listFilters, hget, h0, htr, Event.printedFilter]

/-- Claim C6. For every list of filters `GetFilters` returns: with no argument
every filter is printed, each once, in the order of the list; with a first
argument that compiles to the pattern `re`, the filters printed are those for
which `MatchesFilter(re, filter)` holds, each once, in the order of the list. -/
theorem list_prints_matching (env : Env T R α κ) (filters : List Ptr)
    (hget : env.GetFilters = .ok filters) :
    ((runListFilterCmd env []).status = .done ∧
      (runListFilterCmd env []).trace.filterMap Event.printedFilter = filters) ∧
    ∀ pattern more re, env.regexpCompile pattern = .ok re →
      (runListFilterCmd env (pattern :: more)).status = .done ∧
      (runListFilterCmd env (pattern :: more)).trace.filterMap Event.printedFilter
        = filters.filter (env.MatchesFilter re) := by
  constructor
  · obtain ⟨h1, h2⟩ := listFilters_printed env none [] filters hget rfl
    exact ⟨h1, h2.trans (listLoop_none env filters)⟩
  · intro pattern more re hre
    obtain ⟨h1, h2⟩ := listFilters_printed env (some re) [.regexpCompile pattern true]
      filters hget rfl
    simp only [runListFilterCmd, hre]
    exact ⟨h1, h2.trans (listLoop_some env re filters)⟩

end ListCmd

theorem list_prints_matching_witness :
    (Sample.env false true).GetFilters = .ok [some 0, some 1, some 2] ∧
    (runListFilterCmd (Sample.env false true) []).trace.filterMap Event.printedFilter
      = [some 0, some 1, some 2] ∧
    (runListFilterCmd (Sample.env false true) ["star"]).trace.filterMap Event.printedFilter
      = [some 2] :=
  have h := list_prints_matching (Sample.env false true) [some 0, some 1, some 2] rfl
  ⟨rfl, h.1.2, (h.2 "star" [] "star" rfl).2⟩

end GmailTools

namespace GmailTools

/-! ## The claims about the first loop -/

section ParseClaims

variable {T R α κ : Type}

theorem filterOf_eq {h : Heap α κ} {p : Ptr} {f : Filter α} {c : FilterCriteria κ}
    (hp : h.filterOf p = some (f, c)) :
    h.filterAt p = some f ∧ h.criteriaAt f.Criteria = some c := by
  unfold Heap.filterOf at hp
  cases hf : h.filterAt p with
  | none => simp [hf] at hp
  | some f1 =>
    simp only [hf] at hp
    cases hc : h.criteriaAt f1.Criteria with
    | none => simp [hc] at hp
    | some c1 =>
      simp only [hc, Option.some.injEq, Prod.mk.injEq] at hp
      obtain ⟨rfl, rfl⟩ := hp
      exact ⟨rfl, hc⟩

/-- The body of the first loop on a filter with an empty query: the filter is
recorded and nothing else happens. -/
theorem parseBody_empty (env : Env T R α κ) (s : State T α κ) (p : Ptr) (f : Filter α)
    (c : FilterCriteria κ) (hp : s.heap.filterOf p = some (f, c)) (hq : c.Query = "") :
    parseBody env s p = { s with oldFiltersById := s.oldFiltersById.assign f.Id p } := by
  obtain ⟨hf, hc⟩ := filterOf_eq hp
  simp [parseBody, hf, hc, hq]

/-- The body of the first loop on a filter whose query parses: the filter is
recorded, `ParseElement` is called and the tree is entered under the id. -/
theorem parseBody_parsed (env : Env T R α κ) (s : State T α κ) (p : Ptr) (f : Filter α)
    (c : FilterCriteria κ) (t : T) (hp : s.heap.filterOf p = some (f, c))
    (hq : c.Query ≠ "") (ht : env.ParseElement c.Query = .ok t) :
    parseBody env s p =
      { s with
        oldFiltersById := s.oldFiltersById.assign f.Id p
        trace := s.trace ++ [.parseElement c.Query true]
        filterQueryElems := s.filterQueryElems.assign f.Id t } := by
  obtain ⟨hf, hc⟩ := filterOf_eq hp
  simp [parseBody, hf, hc, hq, ht, State.emit]

/-- The body of the first loop on a filter whose query does not parse: the
filter is recorded, `ParseElement` is called and the run ends. -/
theorem parseBody_failed (env : Env T R α κ) (s : State T α κ) (p : Ptr) (f : Filter α)
    (c : FilterCriteria κ) (err : String) (hp : s.heap.filterOf p = some (f, c))
    (hq : c.Query ≠ "") (ht : env.ParseElement c.Query = .error err) :
    parseBody env s p =
      { s with
        oldFiltersById := s.oldFiltersById.assign f.Id p
        trace := s.trace ++ [.parseElement c.Query false]
        status := .fatal ("Error parsing filter \"" ++ c.Query ++ "\": " ++ err ++ "\n") } := by
  obtain ⟨hf, hc⟩ := filterOf_eq hp
  simp [parseBody, hf, hc, hq, ht, State.emit, State.halt]

theorem queriesOf_cons (h : Heap α κ) (p : Ptr) (rest : List Ptr) (f : Filter α)
    (c : FilterCriteria κ) (hp : h.filterOf p = some (f, c)) :
    queriesOf h (p :: rest) = c.Query :: queriesOf h rest := by
  simp [queriesOf, List.filterMap_cons, hp]

/-- The first loop on filters that all parse: it runs through, calls
`ParseElement` on the queries that are not empty, in order, and enters a tree
under the ids of the filters with such a query, and under no other id. -/
theorem parseLoop_ok (env : Env T R α κ) (fs : List Ptr) :
    ∀ s : State T α κ, s.status = .running → s.heap = env.heap0 →
      (∀ p ∈ fs, Parses env p) →
      (parseLoop env fs s).status = .running ∧
      (parseLoop env fs s).heap = env.heap0 ∧
      (parseLoop env fs s).trace = s.trace ++ parseCalls (queriesOf env.heap0 fs) ∧
      (∀ id, ((parseLoop env fs s).filterQueryElems.lookup id).isSome ↔
        (s.filterQueryElems.lookup id).isSome ∨
          ∃ p ∈ fs, ∃ f c, env.heap0.filterOf p = some (f, c) ∧ f.Id = id ∧ c.Query ≠ "") ∧
      (∀ id t, (parseLoop env fs s).filterQueryElems.lookup id = some t →
        s.filterQueryElems.lookup id = some t ∨
          ∃ p ∈ fs, ∃ f c, env.heap0.filterOf p = some (f, c) ∧ f.Id = id ∧ c.Query ≠ "" ∧
            env.ParseElement c.Query = .ok t) := by
  induction fs with
  | nil =>
    intro s hrun hheap _
    refine ⟨hrun, hheap, by simp [parseLoop, State.forEach, parseCalls, queriesOf], ?_, ?_⟩
    · intro id; simp [parseLoop, State.forEach]
    · intro id t h; exact Or.inl h
  | cons p rest ih =>
    intro s hrun hheap hall
    obtain ⟨f, c, hp, hpq⟩ := hall p (List.mem_cons_self _ _)
    have hp1 : s.heap.filterOf p = some (f, c) := by rw [hheap]; exact hp
    have hall1 : ∀ q ∈ rest, Parses env q := fun q hq => hall q (List.mem_cons_of_mem _ hq)
    by_cases hq : c.Query = ""
    · have hb := parseBody_empty env s p f c hp1 hq
      have hr1 : (parseBody env s p).status = .running := by rw [hb]; exact hrun
      have hh1 : (parseBody env s p).heap = env.heap0 := by rw [hb]; exact hheap
      obtain ⟨g1, g2, g3, g4, g5⟩ := ih (parseBody env s p) hr1 hh1 hall1
      have hloop : parseLoop env (p :: rest) s = parseLoop env rest (parseBody env s p) := by
        simp only [parseLoop, State.forEach, State.andThen_running _ hr1]
      rw [hloop]
      refine ⟨g1, g2, ?_, ?_, ?_⟩
      · rw [g3, hb, queriesOf_cons _ _ _ f c hp]
        simp [parseCalls, hq]
      · intro id
        rw [g4 id, hb]
        constructor
        · rintro (h | ⟨p1, hp1m, h⟩)
          · exact Or.inl h
          · exact Or.inr ⟨p1, List.mem_cons_of_mem _ hp1m, h⟩
        · rintro (h | ⟨p1, hp1m, f1, c1, hf1, hid, hne⟩)
          · exact Or.inl h
          · rcases List.mem_cons.mp hp1m with h | h
            · subst h
              rw [hp] at hf1
              cases hf1
              exact absurd hq hne
            · exact Or.inr ⟨p1, h, f1, c1, hf1, hid, hne⟩
      · intro id t h
        rcases g5 id t h with h1 | ⟨p1, hp1m, h1⟩
        · rw [hb] at h1; exact Or.inl h1
        · exact Or.inr ⟨p1, List.mem_cons_of_mem _ hp1m, h1⟩
    · obtain ⟨t0, ht0⟩ := hpq hq
      have hb := parseBody_parsed env s p f c t0 hp1 hq ht0
      have hr1 : (parseBody env s p).status = .running := by rw [hb]; exact hrun
      have hh1 : (parseBody env s p).heap = env.heap0 := by rw [hb]; exact hheap
      obtain ⟨g1, g2, g3, g4, g5⟩ := ih (parseBody env s p) hr1 hh1 hall1
      have hloop : parseLoop env (p :: rest) s = parseLoop env rest (parseBody env s p) := by
        simp only [parseLoop, State.forEach, State.andThen_running _ hr1]
      rw [hloop]
      refine ⟨g1, g2, ?_, ?_, ?_⟩
      · rw [g3, hb, queriesOf_cons _ _ _ f c hp]
        simp [parseCalls, hq]
      · intro id
        rw [g4 id, hb]
        by_cases hid : f.Id = id
        · subst hid
          simp only [GoMap.lookup_assign_self, Option.isSome_some, true_or, true_iff]
          exact Or.inr ⟨p, List.mem_cons_self _ _, f, c, hp, rfl, hq⟩
        · simp only [GoMap.lookup_assign_ne _ _ hid]
          constructor
          · rintro (h | ⟨p1, hp1m, h⟩)
            · exact Or.inl h
            · exact Or.inr ⟨p1, List.mem_cons_of_mem _ hp1m, h⟩
          · rintro (h | ⟨p1, hp1m, f1, c1, hf1, hid1, hne⟩)
            · exact Or.inl h
            · rcases List.mem_cons.mp hp1m with h | h
              · subst h
                rw [hp] at hf1
                cases hf1
                exact absurd hid1 hid
              · exact Or.inr ⟨p1, h, f1, c1, hf1, hid1, hne⟩
      · intro id t h
        rcases g5 id t h with h1 | ⟨p1, hp1m, h1⟩
        · rw [hb] at h1
          by_cases hid : f.Id = id
          · subst hid
            simp only [GoMap.lookup_assign_self, Option.some.injEq] at h1
            subst h1
            exact Or.inr ⟨p, List.mem_cons_self _ _, f, c, hp, rfl, hq, ht0⟩
          · simp only [GoMap.lookup_assign_ne _ _ hid] at h1
            exact Or.inl h1
        · exact Or.inr ⟨p1, List.mem_cons_of_mem _ hp1m, h1⟩

theorem State.andThen_inv (I : State T α κ → Prop) (s : State T α κ)
    (k : State T α κ → State T α κ) (hs : I s) (hk : s.status = .running → I (k s)) :
    I (s.andThen k) := by
  by_cases hr : s.status = .running
  · rw [State.andThen_running _ hr]; exact hk hr
  · rw [State.andThen_stopped _ hr]; exact hs

/-- The body of the first loop calls `ParseElement` at most once, and on no
empty query. -/
theorem parseBody_noEmptyParse (env : Env T R α κ) (s : State T α κ) (p : Ptr)
    (hs : ∀ ev ∈ s.trace, ev.parsedQuery ≠ some "") :
    ∀ ev ∈ (parseBody env s p).trace, ev.parsedQuery ≠ some "" := by
  cases hf : s.heap.filterAt p with
  | none => simpa [parseBody, hf, State.halt] using hs
  | some f =>
    cases hc : s.heap.criteriaAt f.Criteria with
    | none => simpa [parseBody, hf, hc, State.halt] using hs
    | some c =>
      have hp : s.heap.filterOf p = some (f, c) := by simp [Heap.filterOf, hf, hc]
      by_cases hq : c.Query = ""
      · rw [parseBody_empty env s p f c hp hq]; exact hs
      · have hnew : ∀ b, (Event.parseElement c.Query b).parsedQuery ≠ some "" := by
          intro b; simpa [Event.parsedQuery] using hq
        cases ht : env.ParseElement c.Query with
        | error err =>
          rw [parseBody_failed env s p f c err hp hq ht]
          intro ev hev
          simp only [List.mem_append, List.mem_singleton] at hev
          rcases hev with h | h
          · exact hs ev h
          · subst h; exact hnew false
        | ok t =>
          rw [parseBody_parsed env s p f c t hp hq ht]
          intro ev hev
          simp only [List.mem_append, List.mem_singleton] at hev
          rcases hev with h | h
          · exact hs ev h
          · subst h; exact hnew true

theorem diffBody_noEmptyParse [Inhabited α] [Inhabited κ] (env : Env T R α κ) (s : State T α κ) (e : String × T)
    (hs : ∀ ev ∈ s.trace, ev.parsedQuery ≠ some "") :
    ∀ ev ∈ (diffBody env s e).trace, ev.parsedQuery ≠ some "" := by
  obtain ⟨id, t⟩ := e
  cases hfo : s.heap.filterOf ((s.oldFiltersById.lookup id).getD none) with
  | none => rw [diffBody_panics env s id t hfo]; exact hs
  | some fc =>
    obtain ⟨fo, co⟩ := fc
    cases hl : s.oldFiltersById.lookup id with
    | none => simp [hl, Heap.filterOf_none] at hfo
    | some po =>
      simp only [hl, Option.getD_some] at hfo
      by_cases hq : env.FullFilterStr t = co.Query
      · rw [diffBody_same env s id t po fo co hl hfo hq]; exact hs
      · obtain ⟨_, _, _, _, _, htr⟩ := diffBody_differs env s id t po fo co hl hfo hq
        intro ev hev
        rcases htr ev hev with h | h
        · exact hs ev h
        · rw [h.2.2]; simp

theorem commitBody_noEmptyParse (env : Env T R α κ) (s : State T α κ) (e : String × Ptr)
    (hs : ∀ ev ∈ s.trace, ev.parsedQuery ≠ some "") :
    ∀ ev ∈ (commitBody env s e).trace, ev.parsedQuery ≠ some "" := by
  obtain ⟨id, fltr⟩ := e
  intro ev hev
  cases hc : env.CreateFilter s.heap fltr with
  | error err =>
    rw [commitBody_createFails env s id fltr err hc] at hev
    simp only [State.halt, State.emit, List.mem_append, List.mem_singleton] at hev
    rcases hev with h | h
    · exact hs ev h
    · subst h; simp [Event.parsedQuery]
  | ok cid =>
    cases hd : env.DeleteFilter id with
    | none =>
      rw [commitBody_ok env s id fltr cid hc hd] at hev
      simp only [State.emit, List.mem_append, List.mem_cons, List.mem_singleton,
        List.not_mem_nil, or_false] at hev
      rcases hev with (h | h | h) | h | h
      · exact hs ev h
      all_goals subst h; simp [Event.parsedQuery]
    | some err =>
      rw [commitBody_deleteFails env s id fltr cid err hc hd] at hev
      simp only [State.halt, State.emit, List.mem_append, List.mem_cons, List.mem_singleton,
        List.not_mem_nil, or_false] at hev
      rcases hev with (h | h | h) | h
      · exact hs ev h
      all_goals subst h; simp [Event.parsedQuery]

/-- In a whole run `ParseElement` is never called on an empty query. -/
theorem run_noEmptyParse [Inhabited α] [Inhabited κ] (env : Env T R α κ) :
    ∀ ev ∈ (runUpdateFilterCmd env).trace, ev.parsedQuery ≠ some "" := by
  have h1 : ∀ ev ∈ (parsePhase env).trace, ev.parsedQuery ≠ some "" := by
    unfold parsePhase
    cases hg : env.GetFilters with
    | error err =>
      intro ev hev
      simp [State.halt, State.emit, initState] at hev
      subst hev; simp [Event.parsedQuery]
    | ok filters =>
      apply State.forEach_inv (parseBody env) (fun s => ∀ ev ∈ s.trace, ev.parsedQuery ≠ some "")
        filters (fun s x _ _ hs => parseBody_noEmptyParse env s x hs) _ rfl
      intro ev hev
      simp [State.emit, initState] at hev
      subst hev; simp [Event.parsedQuery]
  have h2 : ∀ ev ∈ (metaGroupsPhase env).trace, ev.parsedQuery ≠ some "" := by
    apply State.andThen_inv (fun s => ∀ ev ∈ s.trace, ev.parsedQuery ≠ some "") _ _ h1
    intro _ ev hev
    unfold metaGroupsStep at hev
    split at hev
    all_goals
      simp only [State.halt, State.emit, List.mem_append, List.mem_singleton] at hev
      rcases hev with h | h
      · exact h1 ev h
      · subst h; simp [Event.parsedQuery]
  have h3 : ∀ ev ∈ (diffPhase env).trace, ev.parsedQuery ≠ some "" := by
    apply State.andThen_inv (fun s => ∀ ev ∈ s.trace, ev.parsedQuery ≠ some "") _ _ h2
    intro hr
    exact State.forEach_inv (diffBody env) (fun s => ∀ ev ∈ s.trace, ev.parsedQuery ≠ some "")
      _ (fun s x _ _ hs => diffBody_noEmptyParse env s x hs) _ hr h2
  apply State.andThen_inv (fun s => ∀ ev ∈ s.trace, ev.parsedQuery ≠ some "") _ _ h3
  intro hr
  have hnew : ∀ ev ∈ ((diffPhase env).emit [(askConfirm env (diffPhase env)).2]).trace,
      ev.parsedQuery ≠ some "" := by
    intro ev hev
    simp only [State.emit, List.mem_append, List.mem_singleton] at hev
    rcases hev with h | h
    · exact h3 ev h
    · subst h
      unfold askConfirm
      split <;> simp [Event.parsedQuery]
  rcases commitStep_cases env (diffPhase env) with ⟨_, h⟩ | ⟨_, _, h⟩ | ⟨_, _, _, h⟩ | ⟨_, _, _, h⟩
  · rw [h]
    intro ev hev
    simp only [State.halt, State.emit, List.mem_append, List.mem_singleton] at hev
    rcases hev with h | h
    · exact h3 ev h
    · subst h; simp [Event.parsedQuery]
  · rw [h]
    intro ev hev
    simp only [State.halt, State.emit, List.mem_append, List.mem_singleton] at hev
    rcases hev with h | h
    · exact h3 ev h
    · subst h; simp [Event.parsedQuery]
  · rw [h]; exact hnew
  · rw [h, (andThen_done _).1]
    exact State.forEach_inv (commitBody env) (fun s => ∀ ev ∈ s.trace, ev.parsedQuery ≠ some "")
      _ (fun s x _ _ hs => commitBody_noEmptyParse env s x hs) _ hr hnew

theorem inj_of_nodup_filterMap {β γ : Type} (g : β → Option γ) :
    ∀ l : List β, (l.filterMap g).Nodup →
      ∀ x ∈ l, ∀ y ∈ l, ∀ a, g x = some a → g y = some a → x = y := by
  intro l
  induction l with
  | nil => intro _ x hx; cases hx
  | cons z l ih =>
    intro hn x hx y hy a hgx hgy
    cases hz : g z with
    | none =>
      rw [List.filterMap_cons_none hz] at hn
      rcases List.mem_cons.mp hx with h | h
      · subst h; rw [hz] at hgx; cases hgx
      · rcases List.mem_cons.mp hy with h2 | h2
        · subst h2; rw [hz] at hgy; cases hgy
        · exact ih hn x h y h2 a hgx hgy
    | some b =>
      rw [List.filterMap_cons_some hz, List.nodup_cons] at hn
      have hmem : ∀ w ∈ l, g w = some b → False := fun w hw hgw =>
        hn.1 (List.mem_filterMap.mpr ⟨w, hw, hgw⟩)
      rcases List.mem_cons.mp hx with h | h
      · subst h
        rcases List.mem_cons.mp hy with h2 | h2
        · exact h2.symm
        · rw [hz] at hgx; cases hgx
          exact absurd hgy (fun e => hmem y h2 e)
      · rcases List.mem_cons.mp hy with h2 | h2
        · subst h2
          rw [hz] at hgy; cases hgy
          exact absurd hgx (fun e => hmem x h e)
        · exact ih hn.2 x h y h2 a hgx hgy

/-- The body of the first loop enters at most one tree, under the id of the
filter it is run on, and only when that filter has a query. -/
theorem parseBody_entries (env : Env T R α κ) (s : State T α κ) (p : Ptr) :
    (parseBody env s p).heap = s.heap ∧
    ∀ id, ((parseBody env s p).filterQueryElems.lookup id).isSome →
      (s.filterQueryElems.lookup id).isSome ∨
        ∃ f c, s.heap.filterOf p = some (f, c) ∧ f.Id = id ∧ c.Query ≠ "" := by
  cases hf : s.heap.filterAt p with
  | none =>
    simp only [parseBody, hf, State.halt, true_and]
    exact fun id h => Or.inl h
  | some f =>
    cases hc : s.heap.criteriaAt f.Criteria with
    | none =>
      simp only [parseBody, hf, hc, State.halt, true_and]
      exact fun id h => Or.inl h
    | some c =>
      have hp : s.heap.filterOf p = some (f, c) := by simp [Heap.filterOf, hf, hc]
      by_cases hq : c.Query = ""
      · rw [parseBody_empty env s p f c hp hq]
        exact ⟨rfl, fun id h => Or.inl h⟩
      · cases ht : env.ParseElement c.Query with
        | error err =>
          rw [parseBody_failed env s p f c err hp hq ht]
          exact ⟨rfl, fun id h => Or.inl h⟩
        | ok t =>
          rw [parseBody_parsed env s p f c t hp hq ht]
          refine ⟨rfl, fun id h => ?_⟩
          by_cases hid : f.Id = id
          · exact Or.inr ⟨f, c, hp, hid, hq⟩
          · simp only [GoMap.lookup_assign_ne _ _ hid] at h
            exact Or.inl h

/-- Whether the first loop runs through or stops, every id it has entered a
tree under is the id of a filter of the list that has a query. -/
theorem parsePhase_entries (env : Env T R α κ) (filters : List Ptr)
    (hget : env.GetFilters = .ok filters) :
    ∀ id, ((parsePhase env).filterQueryElems.lookup id).isSome →
      ∃ p ∈ filters, ∃ f c, env.heap0.filterOf p = some (f, c) ∧ f.Id = id ∧ c.Query ≠ "" := by
  have h := State.forEach_inv (parseBody env)
    (fun s => s.heap = env.heap0 ∧ ∀ id, (s.filterQueryElems.lookup id).isSome →
      ∃ p ∈ filters, ∃ f c, env.heap0.filterOf p = some (f, c) ∧ f.Id = id ∧ c.Query ≠ "")
    filters
    (fun s x hx _ hs => by
      obtain ⟨h1, h2⟩ := parseBody_entries env s x
      refine ⟨h1.trans hs.1, fun id hid => ?_⟩
      rcases h2 id hid with h | ⟨f, c, hfc, hh⟩
      · exact hs.2 id h
      · exact ⟨x, hx, f, c, hs.1 ▸ hfc, hh⟩)
    ((initState env).emit [.getFilters true]) rfl
    ⟨rfl, fun id hid => by simp [State.emit, initState, GoMap.lookup] at hid⟩
  unfold parsePhase
  simp only [hget]
  exact h.2

theorem initState_emit_running (env : Env T R α κ) (evs : List Event) :
    ((initState env).emit evs).status = .running ∧ ((initState env).emit evs).heap = env.heap0 ∧
    ((initState env).emit evs).trace = evs ∧ ((initState env).emit evs).filterQueryElems = [] :=
  ⟨rfl, rfl, by simp [State.emit, initState], rfl⟩

/-- A run whose first loop stops is over where that loop stopped. -/
theorem run_of_parse_stopped (env : Env T R α κ) [Inhabited α] [Inhabited κ]
    (h : (parsePhase env).status ≠ .running) : runUpdateFilterCmd env = parsePhase env := by
  have hm : metaGroupsPhase env = parsePhase env := by
    unfold metaGroupsPhase; rw [State.andThen_stopped _ h]
  have hd : diffPhase env = parsePhase env := by
    unfold diffPhase; rw [hm, State.andThen_stopped _ h]
  unfold runUpdateFilterCmd
  rw [hd, State.andThen_stopped _ h]

/-- Claim C2, the counterexample. In a batch of three filters the query of the
second has a quote that is never closed and the queries of the first and of the
third are well formed; the run ends at the second with a fatal error, the third
is never parsed and the mapping holds no tree for it. -/
theorem parse_failure_not_isolated :
    Sample.envBadQuery.GetFilters = .ok [some 0, some 1, some 2] ∧
    Sample.envBadQuery.heap0.filterOf (some 1)
      = some (⟨"f2", some 1, "archive"⟩, ⟨"subject:\"a b", "me@x.org"⟩) ∧
    Sample.envBadQuery.ParseElement "subject:\"a b" = .error "SyntaxError: unterminated quote" ∧
    Sample.envBadQuery.heap0.filterOf (some 2)
      = some (⟨"f3", some 2, "star"⟩, ⟨"label:x list:y", ""⟩) ∧
    Sample.envBadQuery.ParseElement "label:x list:y" = .ok ["label:x", "list:y"] ∧
    (runUpdateFilterCmd Sample.envBadQuery).filterQueryElems.lookup "f3" = none ∧
    (runUpdateFilterCmd Sample.envBadQuery).filterQueryElems = [("f1", ["from:a", "from:b"])] ∧
    (runUpdateFilterCmd Sample.envBadQuery).trace
      = [.getFilters true, .parseElement "from:a  from:b" true,
         .parseElement "subject:\"a b" false] ∧
    (runUpdateFilterCmd Sample.envBadQuery).status
      = .fatal "Error parsing filter \"subject:\"a b\": SyntaxError: unterminated quote\n" :=
  ⟨rfl, by decide, rfl, by decide, rfl, by decide, by decide, by decide, by decide⟩

/-- Claim C2, amended. The run is a strict batch run: at the first filter, in
the order of `GetFilters`, whose query is not empty and fails to parse, the run
ends with the fatal error `Error parsing filter ...`. The filters before it
have been parsed, and the mapping holds a tree under the id of each of them
that has a query and under no other id; no filter after it is parsed,
`UpdateMetaGroups` is not called, and there is no update candidate. -/
theorem parse_failure_is_fatal [Inhabited α] [Inhabited κ] (env : Env T R α κ)
    (pre post : List Ptr) (p : Ptr) (f : Filter α) (c : FilterCriteria κ) (err : String)
    (hget : env.GetFilters = .ok (pre ++ p :: post))
    (hpre : ∀ q ∈ pre, Parses env q)
    (hp : env.heap0.filterOf p = some (f, c)) (hq : c.Query ≠ "")
    (hfail : env.ParseElement c.Query = .error err) :
    (runUpdateFilterCmd env).status
      = .fatal ("Error parsing filter \"" ++ c.Query ++ "\": " ++ err ++ "\n") ∧
    (runUpdateFilterCmd env).trace
      = .getFilters true :: parseCalls (queriesOf env.heap0 pre)
          ++ [.parseElement c.Query false] ∧
    (∀ id, ((runUpdateFilterCmd env).filterQueryElems.lookup id).isSome ↔
      ∃ q ∈ pre, ∃ f1 c1, env.heap0.filterOf q = some (f1, c1) ∧ f1.Id = id ∧ c1.Query ≠ "") ∧
    (runUpdateFilterCmd env).updatedFilters = [] ∧
    (runUpdateFilterCmd env).heap = env.heap0 := by
  obtain ⟨i1, i2, i3, i4⟩ := initState_emit_running env [.getFilters true]
  obtain ⟨g1, g2, g3, g4, _⟩ :=
    parseLoop_ok env pre ((initState env).emit [.getFilters true]) i1 i2 hpre
  have hb := parseBody_failed env (parseLoop env pre ((initState env).emit [.getFilters true]))
    p f c err (by rw [g2]; exact hp) hq hfail
  have hst : (parseBody env (parseLoop env pre ((initState env).emit [.getFilters true])) p).status
      ≠ .running := by rw [hb]; simp
  have hpp : parsePhase env =
      parseBody env (parseLoop env pre ((initState env).emit [.getFilters true])) p := by
    unfold parsePhase
    simp only [hget]
    unfold parseLoop at g1 hst ⊢
    rw [State.forEach_append _ _ _ _ g1]
    exact State.andThen_stopped _ hst
  have hrs : (parsePhase env).status ≠ .running := by rw [hpp]; exact hst
  have hinv := parsePhase_inv env
  rw [run_of_parse_stopped env hrs]
  refine ⟨by rw [hpp, hb], ?_, ?_, hinv.updated, hinv.heap_eq⟩
  · rw [hpp, hb]
    simp only [g3, i3]
    simp
  · intro id
    rw [hpp, hb]
    simp only [g4 id, i4]
    simp [GoMap.lookup]

/-- The body of the first loop leaves the entry of every id other than that of
the filter it is run on as it was. -/
theorem parseBody_lookup_other (env : Env T R α κ) (s : State T α κ) (p : Ptr) (id : String)
    (hid : ∀ f, s.heap.filterAt p = some f → f.Id ≠ id) :
    (parseBody env s p).filterQueryElems.lookup id = s.filterQueryElems.lookup id := by
  cases hf : s.heap.filterAt p with
  | none => simp [parseBody, hf, State.halt]
  | some f =>
    cases hc : s.heap.criteriaAt f.Criteria with
    | none => simp [parseBody, hf, hc, State.halt]
    | some c =>
      have hp : s.heap.filterOf p = some (f, c) := by simp [Heap.filterOf, hf, hc]
      by_cases hq : c.Query = ""
      · rw [parseBody_empty env s p f c hp hq]
      · cases ht : env.ParseElement c.Query with
        | error err => rw [parseBody_failed env s p f c err hp hq ht]
        | ok t =>
          rw [parseBody_parsed env s p f c t hp hq ht]
          exact GoMap.lookup_assign_ne _ _ (hid f hf)

/-- The first loop, on a list whose initial part `pre` parses and whose ids are
pairwise distinct: whether it runs through or stops in the rest of the list,
every filter of `pre` with a query has the tree parsed from its query as its
entry at the end. -/
theorem parseLoop_prefix_entries (env : Env T R α κ) (pre rest : List Ptr)
    (hdistinct :
      ((pre ++ rest).filterMap (fun p => (env.heap0.filterAt p).map (fun f => f.Id))).Nodup)
    (hpre : ∀ p ∈ pre, Parses env p)
    (s : State T α κ) (hrun : s.status = .running) (hheap : s.heap = env.heap0)
    (hempty : s.filterQueryElems = []) :
    ∀ p ∈ pre, ∀ f c, env.heap0.filterOf p = some (f, c) → c.Query ≠ "" →
      ∃ t, env.ParseElement c.Query = .ok t ∧
        (parseLoop env (pre ++ rest) s).filterQueryElems.lookup f.Id = some t := by
  intro p hp f c hf hq
  obtain ⟨g1, g2, _, g4, g5⟩ := parseLoop_ok env pre s hrun hheap hpre
  rw [List.filterMap_append, List.nodup_append] at hdistinct
  obtain ⟨hn1, _, hdisj⟩ := hdistinct
  -- the entry at the end of `pre`
  have h1 : ((parseLoop env pre s).filterQueryElems.lookup f.Id).isSome :=
    (g4 f.Id).mpr (Or.inr ⟨p, hp, f, c, hf, rfl, hq⟩)
  obtain ⟨t, ht⟩ := Option.isSome_iff_exists.mp h1
  have hpe : env.ParseElement c.Query = .ok t := by
    rcases g5 f.Id t ht with h | ⟨p1, hp1, f1, c1, hf1, hid, _, hpe⟩
    · rw [hempty] at h; simp [GoMap.lookup] at h
    · have e : p1 = p := by
        apply inj_of_nodup_filterMap _ pre hn1 p1 hp1 p hp f.Id
        · simp only [(filterOf_eq hf1).1, Option.map_some', hid]
        · simp only [(filterOf_eq hf).1, Option.map_some']
      subst e
      rw [hf] at hf1
      cases hf1
      exact hpe
  refine ⟨t, hpe, ?_⟩
  -- the rest of the list does not touch it
  have hloop : parseLoop env (pre ++ rest) s = parseLoop env rest (parseLoop env pre s) := by
    unfold parseLoop at g1 ⊢
    exact State.forEach_append _ _ _ _ g1
  rw [hloop]
  have hinv := State.forEach_inv (parseBody env)
    (fun s1 => s1.heap = env.heap0 ∧ s1.filterQueryElems.lookup f.Id = some t) rest
    (fun s1 x hx _ hs => by
      refine ⟨(parseBody_entries env s1 x).1.trans hs.1, ?_⟩
      rw [parseBody_lookup_other env s1 x f.Id ?_]
      · exact hs.2
      · intro fx hfx hid
        rw [hs.1] at hfx
        have m1 : f.Id ∈ pre.filterMap (fun p => (env.heap0.filterAt p).map (fun f => f.Id)) :=
          List.mem_filterMap.mpr ⟨p, hp, by simp [(filterOf_eq hf).1]⟩
        have m2 : f.Id ∈ rest.filterMap (fun p => (env.heap0.filterAt p).map (fun f => f.Id)) :=
          List.mem_filterMap.mpr ⟨x, hx, by simp [hfx, hid]⟩
        exact hdisj m1 m2)
    (parseLoop env pre s) g1 ⟨g2, ht⟩
  exact hinv.2

/-- Claim C4, the counterexample. Three filters with pairwise distinct ids; the
query of the third is not empty and parses, and the third has no entry in the
mapping all the same: the query of the second does not parse, and the run ended
there. -/
theorem parsable_query_without_entry :
    Sample.envBadQuery.GetFilters = .ok [some 0, some 1, some 2] ∧
    ([some 0, some 1, some 2].filterMap
      (fun p => (Sample.envBadQuery.heap0.filterAt p).map (fun f => f.Id))).Nodup ∧
    Sample.envBadQuery.heap0.filterOf (some 2)
      = some (⟨"f3", some 2, "star"⟩, ⟨"label:x list:y", ""⟩) ∧
    "label:x list:y" ≠ "" ∧
    Sample.envBadQuery.ParseElement "label:x list:y" = .ok ["label:x", "list:y"] ∧
    (parsePhase Sample.envBadQuery).filterQueryElems.lookup "f3" = none ∧
    (runUpdateFilterCmd Sample.envBadQuery).filterQueryElems.lookup "f3" = none ∧
    (parsePhase Sample.envBadQuery).status
      = .fatal "Error parsing filter \"subject:\"a b\": SyntaxError: unterminated quote\n" :=
  ⟨rfl, by decide, by decide, by decide, rfl, by decide, by decide, by decide⟩

/-- Claim C4, amended. For every list of filters with pairwise distinct ids:
`ParseElement` is never called on an empty query; a filter of the list with an
empty query has no entry in the mapping the first loop builds, the one passed
to `UpdateMetaGroups`, and (when the template engine adds no id to the map) it
is not among the update candidates. A filter with a query that parses has the
tree parsed from its query as its entry when every filter before it in the
list parses, whether or not the loop stops at a later filter; and when every
filter of the list parses, the first loop runs through, calls `ParseElement`
once for each query that is not empty, in order, and every filter with a query
has the tree parsed from its query as its entry in the mapping passed to
`UpdateMetaGroups`. -/
theorem empty_query_skipped [Inhabited α] [Inhabited κ] (env : Env T R α κ)
    (filters : List Ptr)
    (hget : env.GetFilters = .ok filters)
    (hdistinct :
      (filters.filterMap (fun p => (env.heap0.filterAt p).map (fun f => f.Id))).Nodup)
    (hrange : ∀ m, (env.rangeElems m).Perm m)
    (hkeys : ∀ m, env.UpdateMetaGroups (parsePhase env).filterQueryElems = .ok m →
      ∀ k ∈ m.keys, k ∈ (parsePhase env).filterQueryElems.keys) :
    (∀ ev ∈ (runUpdateFilterCmd env).trace, ev.parsedQuery ≠ some "") ∧
    (∀ p ∈ filters, ∀ f c, env.heap0.filterOf p = some (f, c) → c.Query = "" →
      (parsePhase env).filterQueryElems.lookup f.Id = none ∧
      (runUpdateFilterCmd env).updatedFilters.lookup f.Id = none) ∧
    ((∀ p ∈ filters, Parses env p) →
      (parsePhase env).status = .running ∧
      (parsePhase env).trace = .getFilters true :: parseCalls (queriesOf env.heap0 filters) ∧
      ∀ p ∈ filters, ∀ f c, env.heap0.filterOf p = some (f, c) → c.Query ≠ "" →
        ∃ t, env.ParseElement c.Query = .ok t ∧
          (parsePhase env).filterQueryElems.lookup f.Id = some t) ∧
    (∀ pre rest, filters = pre ++ rest → (∀ p ∈ pre, Parses env p) →
      ∀ p ∈ pre, ∀ f c, env.heap0.filterOf p = some (f, c) → c.Query ≠ "" →
        ∃ t, env.ParseElement c.Query = .ok t ∧
          (parsePhase env).filterQueryElems.lookup f.Id = some t) := by
  -- two filters of the list with the same id are the same filter
  have hinj : ∀ p1 ∈ filters, ∀ p2 ∈ filters, ∀ f1 c1 f2 c2,
      env.heap0.filterOf p1 = some (f1, c1) → env.heap0.filterOf p2 = some (f2, c2) →
      f1.Id = f2.Id → f1 = f2 ∧ c1 = c2 := by
    intro p1 hp1 p2 hp2 f1 c1 f2 c2 h1 h2 hid
    have e : p1 = p2 := by
      apply inj_of_nodup_filterMap _ filters hdistinct p1 hp1 p2 hp2 f2.Id
      · simp only [(filterOf_eq h1).1, Option.map_some', hid]
      · simp only [(filterOf_eq h2).1, Option.map_some']
    subst e
    rw [h1] at h2
    cases h2
    exact ⟨rfl, rfl⟩
  -- the ids of the map the second loop visits are ids of the parsed map
  have hsub : ∀ id, id ∈ (metaGroupsPhase env).filterQueryElems.keys →
      id ∈ (parsePhase env).filterQueryElems.keys := by
    intro id hid
    by_cases hrun : (parsePhase env).status = .running
    · cases hu : env.UpdateMetaGroups (parsePhase env).filterQueryElems with
      | ok m =>
        rw [metaGroupsPhase_ok env m hrun hu] at hid
        exact hkeys m hu id hid
      | error err =>
        have hm : metaGroupsPhase env = ((parsePhase env).emit [.updateMetaGroups false]).halt
            (.fatal ("Template error: " ++ err)) := by
          unfold metaGroupsPhase
          rw [State.andThen_running _ hrun, metaGroupsStep_error env _ err hu]
        rw [hm] at hid
        exact hid
    · have hm : metaGroupsPhase env = parsePhase env := by
        unfold metaGroupsPhase
        rw [State.andThen_stopped _ hrun]
      rw [hm] at hid
      exact hid
  refine ⟨run_noEmptyParse env, ?_, ?_, ?_⟩
  · intro p hp f c hf hq
    have hnone : (parsePhase env).filterQueryElems.lookup f.Id = none := by
      cases hl : (parsePhase env).filterQueryElems.lookup f.Id with
      | none => rfl
      | some t =>
        obtain ⟨p1, hp1, f1, c1, hf1, hid, hne⟩ :=
          parsePhase_entries env filters hget f.Id (by rw [hl]; rfl)
        obtain ⟨_, e2⟩ := hinj p1 hp1 p hp f1 c1 f c hf1 hf hid
        rw [e2] at hne
        exact absurd hq hne
    refine ⟨hnone, ?_⟩
    cases hl : (runUpdateFilterCmd env).updatedFilters.lookup f.Id with
    | none => rfl
    | some pu =>
      rw [(run_frame env).2.2.2] at hl
      obtain ⟨t, ht, _⟩ := (diffPhase_inv env).cands f.Id pu hl
      have hmem : f.Id ∈ (metaGroupsPhase env).filterQueryElems.keys :=
        List.mem_map.mpr ⟨(f.Id, t), ((hrange _).mem_iff).mp ht, rfl⟩
      have := (GoMap.lookup_eq_none_iff _ _).mp hnone
      exact absurd (hsub f.Id hmem) this
  · intro hall
    obtain ⟨i1, i2, i3, i4⟩ := initState_emit_running env [.getFilters true]
    obtain ⟨g1, g2, g3, g4, g5⟩ :=
      parseLoop_ok env filters ((initState env).emit [.getFilters true]) i1 i2 hall
    have hpp : parsePhase env
        = parseLoop env filters ((initState env).emit [.getFilters true]) := by
      unfold parsePhase
      simp only [hget]
    refine ⟨by rw [hpp]; exact g1, by rw [hpp, g3, i3]; rfl, ?_⟩
    intro p hp f c hf hq
    have h1 : ((parsePhase env).filterQueryElems.lookup f.Id).isSome := by
      rw [hpp]
      exact (g4 f.Id).mpr (Or.inr ⟨p, hp, f, c, hf, rfl, hq⟩)
    obtain ⟨t, ht⟩ := Option.isSome_iff_exists.mp h1
    refine ⟨t, ?_, ht⟩
    rw [hpp] at ht
    rcases g5 f.Id t ht with h | ⟨p1, hp1, f1, c1, hf1, hid, _, hpe⟩
    · rw [i4] at h; simp [GoMap.lookup] at h
    · obtain ⟨_, e2⟩ := hinj p1 hp1 p hp f1 c1 f c hf1 hf hid
      rw [← e2]
      exact hpe
  · intro pre rest hfs hpre
    obtain ⟨i1, i2, _, i4⟩ := initState_emit_running env [.getFilters true]
    have hpp : parsePhase env
        = parseLoop env (pre ++ rest) ((initState env).emit [.getFilters true]) := by
      unfold parsePhase
      simp only [hget, hfs]
    rw [hpp]
    exact parseLoop_prefix_entries env pre rest (hfs ▸ hdistinct) hpre _ i1 i2 i4

end ParseClaims

/-! ### The two theorems above, on the small instance -/

theorem parse_failure_is_fatal_witness :
    Sample.envBadQuery.GetFilters = .ok ([some 0] ++ some 1 :: [some 2]) ∧
    (runUpdateFilterCmd Sample.envBadQuery).status
      = .fatal ("Error parsing filter \"" ++ "subject:\"a b" ++ "\": "
          ++ "SyntaxError: unterminated quote" ++ "\n") ∧
    (runUpdateFilterCmd Sample.envBadQuery).trace
      = .getFilters true :: parseCalls (queriesOf Sample.envBadQuery.heap0 [some 0])
          ++ [.parseElement "subject:\"a b" false] ∧
    (∀ id, ((runUpdateFilterCmd Sample.envBadQuery).filterQueryElems.lookup id).isSome ↔
      ∃ q ∈ [some 0], ∃ f1 c1, Sample.envBadQuery.heap0.filterOf q = some (f1, c1) ∧
        f1.Id = id ∧ c1.Query ≠ "") ∧
    (runUpdateFilterCmd Sample.envBadQuery).updatedFilters = [] ∧
    (runUpdateFilterCmd Sample.envBadQuery).heap = Sample.envBadQuery.heap0 :=
  ⟨rfl, parse_failure_is_fatal Sample.envBadQuery [some 0] [some 2] (some 1)
    ⟨"f2", some 1, "archive"⟩ ⟨"subject:\"a b", "me@x.org"⟩ "SyntaxError: unterminated quote"
    rfl
    (fun q hq => by
      rw [List.mem_singleton] at hq
      subst hq
      exact ⟨⟨"f1", some 0, "trash"⟩, ⟨"from:a  from:b", ""⟩, rfl, fun _ => ⟨_, rfl⟩⟩)
    rfl (by decide) rfl⟩

theorem empty_query_skipped_witness :
    (∀ ev ∈ (runUpdateFilterCmd Sample.envBadQuery).trace, ev.parsedQuery ≠ some "") ∧
    (parsePhase Sample.envBadQuery).status ≠ .running ∧
    ∀ p ∈ [some 0], ∀ f c, Sample.envBadQuery.heap0.filterOf p = some (f, c) →
      c.Query ≠ "" → ∃ t, Sample.ParseElement c.Query = .ok t ∧
        (parsePhase Sample.envBadQuery).filterQueryElems.lookup f.Id = some t :=
  have h := empty_query_skipped Sample.envBadQuery [some 0, some 1, some 2] rfl
    (by decide) (fun m => List.Perm.refl m) (fun m hm => by cases hm; decide)
  ⟨h.1, by decide, h.2.2.2 [some 0] [some 1, some 2] rfl (fun p hp => by
      rw [List.mem_singleton] at hp
      subst hp
      exact ⟨⟨"f1", some 0, "trash"⟩, ⟨"from:a  from:b", ""⟩, rfl, fun _ => ⟨_, rfl⟩⟩)⟩

end GmailTools

